import Mathlib

/-!
Verification of the puslib PUS/CCSDS packet library core.

Shallow embedding of the Python sources:
- `puslib/crc_ccitt.py` (CRC-16/CCITT engine)
- `src/puslib/packet.py` (CCSDS space packet, PUS TC and TM packets)
- `puslib/time.py` (CUC time values, as used by the TM codec)
- `puslib/parameter.py` (typed parameter cells with change notification)
- `puslib/services/service.py` (generic service dispatch loop)
- `src/puslib/services/pus_001_request_verification.py`
- `src/puslib/services/pus_003_housekeeping.py`
- `src/puslib/services/pus_005_event_reporting.py`

Python byte strings are modelled as `List Nat` with every element < 256;
Python unbounded ints are `Nat` (no negative intermediate arises in the
embedded code, except where noted and modelled with `Int`); fallible code
returns `Except PacketError`.
-/

namespace Puslib

deriving instance DecidableEq for Except

/-! ## Byte-string helpers

`toBytesBE n v` models Python `v.to_bytes(n, byteorder='big')` (truncating
like `v % 256^n`; the embedded code only applies it to in-range values, which
the validity predicates guarantee).  `fromBytesBE` models
`int.from_bytes(buffer, byteorder='big')`. -/

def toBytesBE : Nat → Nat → List Nat
  | 0, _ => []
  | n + 1, v => toBytesBE n (v / 256) ++ [v % 256]

def fromBytesBE (l : List Nat) : Nat :=
  l.foldl (fun acc b => acc * 256 + b) 0

/-- Python slicing `l[start:stop]` for a nonnegative start and a possibly
negative stop (a negative stop counts from the end of the list). -/
def pySlice (l : List Nat) (start : Nat) (stop : Int) : List Nat :=
  let stopIdx : Int := if stop < 0 then (l.length : Int) + stop else stop
  (l.drop start).take (stopIdx - start).toNat

@[simp] theorem toBytesBE_length (n v : Nat) : (toBytesBE n v).length = n := by
  induction n generalizing v with
  | zero => rfl
  | succ n ih => simp [toBytesBE, ih]

theorem toBytesBE_lt (n v : Nat) : ∀ b ∈ toBytesBE n v, b < 256 := by
  induction n generalizing v with
  | zero => simp [toBytesBE]
  | succ n ih =>
    intro b hb
    simp only [toBytesBE, List.mem_append, List.mem_singleton] at hb
    rcases hb with hb | hb
    · exact ih _ _ hb
    · subst hb; exact Nat.mod_lt _ (by norm_num)

theorem foldl_bytes_shift (l : List Nat) (a : Nat) :
    l.foldl (fun acc b => acc * 256 + b) a =
      a * 256 ^ l.length + l.foldl (fun acc b => acc * 256 + b) 0 := by
  induction l generalizing a with
  | nil => simp
  | cons x xs ih =>
    simp only [List.foldl_cons, List.length_cons]
    rw [ih (a * 256 + x), ih (0 * 256 + x)]
    ring

theorem fromBytesBE_append (l₁ l₂ : List Nat) :
    fromBytesBE (l₁ ++ l₂) =
      (fromBytesBE l₁) * 256 ^ l₂.length + fromBytesBE l₂ := by
  unfold fromBytesBE
  rw [List.foldl_append, foldl_bytes_shift]

theorem fromBytesBE_toBytesBE (n v : Nat) (h : v < 256 ^ n) :
    fromBytesBE (toBytesBE n v) = v := by
  induction n generalizing v with
  | zero =>
    interval_cases v
    rfl
  | succ n ih =>
    have hdiv : v / 256 < 256 ^ n := by
      rw [Nat.div_lt_iff_lt_mul (by norm_num)]
      calc v < 256 ^ (n + 1) := h
        _ = 256 ^ n * 256 := by ring
    rw [toBytesBE, fromBytesBE_append, ih _ hdiv]
    simp [fromBytesBE]
    omega

/-! ## CRC engine (`puslib/crc_ccitt.py`)

CRC-16/CCITT: polynomial 0x1021, initial register 0xFFFF, MSB first,
byte-at-a-time table lookup, no reflection, no final XOR. -/

/-- Loop body of `_initial` in `crc_ccitt.py`: `j` counts remaining
iterations of `for j in range(8)`, the state is the pair `(crc, c)`. -/
def crcInitialAux : Nat → Nat → Nat → Nat
  | 0, crc, _ => crc
  | j + 1, crc, c =>
    crcInitialAux j
      (if (crc ^^^ c) &&& 0x8000 ≠ 0 then (crc <<< 1) ^^^ 0x1021 else crc <<< 1)
      (c <<< 1)

/-- `_initial(c)`: the CRC table entry generator (`crc = 0`, `c = c << 8`,
eight reduction steps).  Note the Python code does not mask the register to
16 bits here; neither do we. -/
def crcInitial (c : Nat) : Nat := crcInitialAux 8 0 (c <<< 8)

/-- `_tab[i] = _initial(i)`: the precomputed 256-entry table, modelled as a
function. -/
def crcTab (i : Nat) : Nat := crcInitial i

/-- `_update_crc(crc, c)`: one table-driven step,
`crc = ((crc << 8) ^ _tab[((crc >> 8) ^ (0xff & c)) & 0xff]) & 0xffff`. -/
def crcUpdate (crc c : Nat) : Nat :=
  ((crc <<< 8) ^^^ crcTab (((crc >>> 8) ^^^ (0xff &&& c)) &&& 0xff)) &&& 0xffff

/-- `calculateb(i)`: fold `_update_crc` over the bytes starting from the
preset 0xFFFF. -/
def calculateb (l : List Nat) : Nat := l.foldl crcUpdate 0xffff

/-! ### CRC facts -/

theorem and_mask8 (x : Nat) : x &&& 255 = x % 256 := by
  have h := Nat.and_pow_two_sub_one_eq_mod x 8
  norm_num at h
  exact h

theorem and_mask16 (x : Nat) : x &&& 65535 = x % 65536 := by
  have h := Nat.and_pow_two_sub_one_eq_mod x 16
  norm_num at h
  exact h

theorem xor_mod_256 (a b : Nat) : (a ^^^ b) % 256 = (a % 256) ^^^ (b % 256) := by
  rw [← and_mask8, ← and_mask8 a, ← and_mask8 b, Nat.and_xor_distrib_right]

theorem xor_mod_65536 (a b : Nat) :
    (a ^^^ b) % 65536 = (a % 65536) ^^^ (b % 65536) := by
  rw [← and_mask16, ← and_mask16 a, ← and_mask16 b, Nat.and_xor_distrib_right]

theorem crcUpdate_lt (crc c : Nat) : crcUpdate crc c < 65536 := by
  unfold crcUpdate
  rw [and_mask16]
  exact Nat.mod_lt _ (by norm_num)

theorem foldl_crcUpdate_lt (l : List Nat) :
    ∀ a, a < 65536 → l.foldl crcUpdate a < 65536 := by
  induction l with
  | nil => intro a ha; simpa using ha
  | cons x xs ih => intro a _; exact ih _ (crcUpdate_lt a x)

theorem calculateb_lt (l : List Nat) : calculateb l < 65536 :=
  foldl_crcUpdate_lt l 0xffff (by norm_num)

theorem xor_lt_256 {a b : Nat} (ha : a < 256) (hb : b < 256) : a ^^^ b < 256 := by
  have := Nat.xor_lt_two_pow (n := 8) (by simpa using ha) (by simpa using hb)
  simpa using this

/-- Closed form of one CRC step for a 16-bit register. -/
theorem crcUpdate_eq (crc c : Nat) (h : crc < 65536) :
    crcUpdate crc c =
      ((crc % 256) * 256) ^^^ (crcTab ((crc / 256) ^^^ (c % 256)) % 65536) := by
  have hdiv : crc / 256 < 256 := Nat.div_lt_of_lt_mul (by omega)
  have hshl : crc <<< 8 = crc * 256 := by rw [Nat.shiftLeft_eq]
  have hshr : crc >>> 8 = crc / 256 := by rw [Nat.shiftRight_eq_div_pow]
  have hidx : ((crc >>> 8) ^^^ (255 &&& c)) &&& 255 = (crc / 256) ^^^ (c % 256) := by
    rw [hshr, Nat.and_comm 255 c, and_mask8 c, and_mask8]
    exact Nat.mod_eq_of_lt (xor_lt_256 hdiv (Nat.mod_lt c (by norm_num)))
  unfold crcUpdate
  rw [hidx, and_mask16, hshl, xor_mod_65536]
  congr 1
  rw [show (65536 : Nat) = 256 * 256 from rfl, Nat.mul_mod_mul_right]

theorem crcUpdate_mod256 (crc c : Nat) (h : crc < 65536) :
    crcUpdate crc c % 256 = crcTab ((crc / 256) ^^^ (c % 256)) % 256 := by
  rw [crcUpdate_eq crc c h, xor_mod_256, Nat.mul_mod_left, Nat.zero_xor,
    Nat.mod_mod_of_dvd _ (by norm_num)]

set_option maxRecDepth 10000 in
set_option maxHeartbeats 4000000 in
/-- The low byte of a CRC table entry determines the table index:
a finite check over all 256 × 256 index pairs. -/
theorem crcTab_low_inj :
    ∀ i < 256, ∀ j < 256, crcTab i % 256 = crcTab j % 256 → i = j := by decide

theorem crcTab_zero : crcTab 0 = 0 := by decide

/-- One CRC step is injective in the input byte (for bytes < 256). -/
theorem crcUpdate_byte_inj (crc c c' : Nat) (h : crc < 65536)
    (hc : c < 256) (hc' : c' < 256) (hne : c ≠ c') :
    crcUpdate crc c ≠ crcUpdate crc c' := by
  have hdiv : crc / 256 < 256 := Nat.div_lt_of_lt_mul (by omega)
  intro heq
  have hlow := congrArg (· % 256) heq
  simp only at hlow
  rw [crcUpdate_mod256 crc c h, crcUpdate_mod256 crc c' h] at hlow
  have hidx := crcTab_low_inj _
    (xor_lt_256 hdiv (Nat.mod_lt c (by norm_num))) _
    (xor_lt_256 hdiv (Nat.mod_lt c' (by norm_num)))
    hlow
  have := Nat.xor_right_inj.mp hidx
  rw [Nat.mod_eq_of_lt hc, Nat.mod_eq_of_lt hc'] at this
  exact hne this

/-- One CRC step is injective in the register (for a fixed byte). -/
theorem crcUpdate_reg_inj (crc₁ crc₂ c : Nat) (h₁ : crc₁ < 65536)
    (h₂ : crc₂ < 65536) (hne : crc₁ ≠ crc₂) :
    crcUpdate crc₁ c ≠ crcUpdate crc₂ c := by
  have hdiv₁ : crc₁ / 256 < 256 := Nat.div_lt_of_lt_mul (by omega)
  have hdiv₂ : crc₂ / 256 < 256 := Nat.div_lt_of_lt_mul (by omega)
  have hmodc : c % 256 < 256 := Nat.mod_lt c (by norm_num)
  intro heq
  have hlow := congrArg (· % 256) heq
  simp only at hlow
  rw [crcUpdate_mod256 crc₁ c h₁, crcUpdate_mod256 crc₂ c h₂] at hlow
  have hidx := crcTab_low_inj _
    (xor_lt_256 hdiv₁ hmodc) _
    (xor_lt_256 hdiv₂ hmodc)
    hlow
  have hdiv : crc₁ / 256 = crc₂ / 256 := Nat.xor_left_inj.mp hidx
  rw [crcUpdate_eq crc₁ c h₁, crcUpdate_eq crc₂ c h₂, hdiv] at heq
  have hmul := Nat.xor_left_inj.mp heq
  have hmod : crc₁ % 256 = crc₂ % 256 :=
    Nat.eq_of_mul_eq_mul_right (by norm_num) hmul
  omega

/-- Folding the CRC over a common suffix preserves register inequality. -/
theorem foldl_crcUpdate_ne (l : List Nat) :
    ∀ a b, a < 65536 → b < 65536 → a ≠ b →
      l.foldl crcUpdate a ≠ l.foldl crcUpdate b := by
  induction l with
  | nil => intro a b _ _ hne; simpa using hne
  | cons x xs ih =>
    intro a b ha hb hne
    simp only [List.foldl_cons]
    exact ih _ _ (crcUpdate_lt a x) (crcUpdate_lt b x)
      (crcUpdate_reg_inj a b x ha hb hne)

/-- Changing one byte of the input changes the CRC. -/
theorem calculateb_single_byte_ne (pre suf : List Nat) (c c' : Nat)
    (hc : c < 256) (hc' : c' < 256) (hne : c ≠ c') :
    calculateb (pre ++ c :: suf) ≠ calculateb (pre ++ c' :: suf) := by
  unfold calculateb
  rw [List.foldl_append, List.foldl_append, List.foldl_cons, List.foldl_cons]
  have hpre : pre.foldl crcUpdate 0xffff < 65536 :=
    foldl_crcUpdate_lt pre 0xffff (by norm_num)
  exact foldl_crcUpdate_ne suf _ _ (crcUpdate_lt _ c) (crcUpdate_lt _ c')
    (crcUpdate_byte_inj _ c c' hpre hc hc' hne)

/-- Appending the big-endian CRC of a message yields a total CRC of zero
(the sender/receiver contract of `serialize`/`deserialize`). -/
theorem calculateb_append_pec (m : List Nat) :
    calculateb (m ++ [calculateb m / 256, calculateb m % 256]) = 0 := by
  have hP : calculateb m < 65536 := calculateb_lt m
  have hhi : calculateb m / 256 < 256 := Nat.div_lt_of_lt_mul (by omega)
  have hlo : calculateb m % 256 < 256 := Nat.mod_lt _ (by norm_num)
  show (m ++ _).foldl crcUpdate 0xffff = 0
  rw [List.foldl_append]
  show crcUpdate (crcUpdate (calculateb m) (calculateb m / 256))
    (calculateb m % 256) = 0
  have h1 : crcUpdate (calculateb m) (calculateb m / 256) =
      (calculateb m % 256) * 256 := by
    rw [crcUpdate_eq _ _ hP, Nat.mod_eq_of_lt hhi, Nat.xor_self, crcTab_zero]
    simp
  rw [h1, crcUpdate_eq _ _ (by omega : (calculateb m % 256) * 256 < 65536),
    Nat.mul_div_cancel _ (by norm_num), Nat.mod_eq_of_lt hlo, Nat.xor_self,
    crcTab_zero]
  simp

/-! ## Packet codec (`src/puslib/packet.py`) -/

/-- Exceptions raised by the embedded code (`puslib/exceptions.py` plus the
built-in Python exceptions the code can raise). -/
inductive PacketError
  | structError
  | incompletePacket
  | invalidPacket
  | crcMismatch
  | typeError
  | valueError
deriving DecidableEq

inductive PacketType
  | TM
  | TC
deriving DecidableEq

/-- `_PacketPrimaryHeader` (also the 7-tuple returned by
`CcsdsSpacePacket.deserialize`). -/
@[ext]
structure PacketPrimaryHeader where
  packetVersionNumber : Nat
  packetType : PacketType
  secondaryHeaderFlag : Bool
  apid : Nat
  seqFlags : Nat
  seqCountOrName : Nat
  dataLength : Nat
deriving DecidableEq

/-- `packet_id = packet_version_number << 13 | packet_type << 12 |
secondary_header_flag << 11 | apid`. -/
def packetIdWord (h : PacketPrimaryHeader) : Nat :=
  h.packetVersionNumber <<< 13 |||
    (if h.packetType = PacketType.TC then 1 else 0) <<< 12 |||
    (if h.secondaryHeaderFlag then 1 else 0) <<< 11 ||| h.apid

/-- `seq_ctrl = seq_flags << 14 | seq_count_or_name`. -/
def seqCtrlWord (h : PacketPrimaryHeader) : Nat :=
  h.seqFlags <<< 14 ||| h.seqCountOrName

/-- `CcsdsSpacePacket.serialize`: `struct.pack('>HHH', packet_id, seq_ctrl,
data_length)` followed by the raw payload when no secondary header is
present (subclasses append the data field themselves otherwise). -/
def ccsdsSerialize (h : PacketPrimaryHeader) (payload : List Nat) : List Nat :=
  toBytesBE 2 (packetIdWord h) ++ toBytesBE 2 (seqCtrlWord h) ++
    toBytesBE 2 h.dataLength ++ (if h.secondaryHeaderFlag then [] else payload)

/-- `CcsdsSpacePacket.request_id`: `struct.pack('>HH', packet_id, seq_ctrl)`. -/
def requestIdBytes (h : PacketPrimaryHeader) : List Nat :=
  toBytesBE 2 (packetIdWord h) ++ toBytesBE 2 (seqCtrlWord h)

/-- `CcsdsSpacePacket.deserialize`: primary-header parsing with the
incomplete-packet, oversize-packet and CRC checks. -/
def ccsdsDeserialize (buffer : List Nat) (hasPec validatePec : Bool) :
    Except PacketError PacketPrimaryHeader :=
  if buffer.length < 6 then .error .structError else
  let packetId := fromBytesBE (buffer.take 2)
  let seqCtrl := fromBytesBE ((buffer.drop 2).take 2)
  let dataLength := fromBytesBE ((buffer.drop 4).take 2)
  let packetSize := 6 + dataLength + 1
  if buffer.length < packetSize then .error .incompletePacket
  else if 65542 < packetSize then .error .invalidPacket
  else if hasPec && validatePec && !(calculateb (buffer.take packetSize) == 0) then
    .error .crcMismatch
  else .ok {
    packetVersionNumber := (packetId >>> 13) &&& 0b111
    packetType := if (packetId >>> 12) &&& 0b1 = 1 then .TC else .TM
    secondaryHeaderFlag := (packetId >>> 11) &&& 0b1 = 1
    apid := packetId &&& 0x7ff
    seqFlags := (seqCtrl >>> 14) &&& 0b11
    seqCountOrName := seqCtrl &&& 0x3fff
    dataLength := dataLength }

/-- `CcsdsSpacePacket.create` (field validation and data-length logic),
specialized to the keyword arguments the library itself passes.  Returns the
validated primary header together with the normalized payload
(`data = None` becomes `bytes()`).  `dataLengthArg = none` models an absent
`data_length` keyword; note that Python treats `data_length = 0` and
`data_length = None` alike (`if data_length:`). -/
def ccsdsCreate (hasPec : Bool) (pvn : Nat) (ptype : PacketType) (shf : Bool)
    (apid seqFlags seqCount : Nat) (data : Option (List Nat))
    (dataLengthArg : Option Nat) (secondaryHeaderLength : Nat) :
    Except PacketError (PacketPrimaryHeader × List Nat) :=
  if pvn ≠ 0 then .error .invalidPacket
  else if 0x7ff < apid then .error .invalidPacket
  else if 0x3fff < seqCount then .error .invalidPacket
  else
    let payload := data.getD []
    let dataSizeExceptSourceData := secondaryHeaderLength + (if hasPec then 2 else 0)
    let maxDataSize := 65542 - 6 - dataSizeExceptSourceData
    let computed : Except PacketError (PacketPrimaryHeader × List Nat) :=
      let dl0 := dataSizeExceptSourceData + payload.length
      if maxDataSize < dl0 then .error .valueError
      else .ok (⟨pvn, ptype, shf, apid, seqFlags, seqCount,
        if 0 < dl0 then dl0 - 1 else dl0⟩, payload)
    match dataLengthArg with
    | some dl =>
      if dl ≠ 0 then
        if ¬ (dataSizeExceptSourceData ≤ dl + 1 ∧ dl + 1 ≤ maxDataSize) then
          .error .invalidPacket
        else if dataSizeExceptSourceData + payload.length ≠ dl + 1 then
          .error .invalidPacket
        else .ok (⟨pvn, ptype, shf, apid, seqFlags, seqCount, dl⟩, payload)
      else computed
    | none => computed

/-- `_PacketSecondaryHeaderTc`. -/
@[ext]
structure TcSecondaryHeader where
  pusVersion : Nat
  ackFlags : Nat
  serviceType : Nat
  serviceSubtype : Nat
  source : Option Nat
deriving DecidableEq

/-- Dataclass defaults of `_PacketSecondaryHeaderTc` (PUS version 2,
`AckFlag.NONE`, service type/subtype 0, no source). -/
def tcSecHdrDefault : TcSecondaryHeader := ⟨2, 0, 0, 0, none⟩

@[ext]
structure PusTcPacket where
  header : PacketPrimaryHeader
  secondaryHeader : TcSecondaryHeader
  payload : List Nat
  hasPec : Bool
deriving DecidableEq

/-- The `packet_without_pec` intermediate of `PusTcPacket.serialize`. -/
def PusTcPacket.serializeWithoutPec (p : PusTcPacket) : List Nat :=
  ccsdsSerialize p.header p.payload ++
    (if p.header.secondaryHeaderFlag then
      [(p.secondaryHeader.pusVersion <<< 4) ||| p.secondaryHeader.ackFlags,
        p.secondaryHeader.serviceType, p.secondaryHeader.serviceSubtype]
    else []) ++
    (if p.header.secondaryHeaderFlag then
      match p.secondaryHeader.source with
      | some s => toBytesBE 2 s
      | none => []
    else []) ++
    (if p.header.secondaryHeaderFlag then p.payload else [])

/-- `PusTcPacket.serialize`. -/
def PusTcPacket.serialize (p : PusTcPacket) : List Nat :=
  p.serializeWithoutPec ++
    (if p.hasPec then toBytesBE 2 (calculateb p.serializeWithoutPec) else [])

/-- `PusTcPacket.create`, specialized to the keyword arguments passed by
`PusTcPacket.deserialize` (an optional field is `none` exactly when the
Python call passes `None`). -/
def tcCreate (hasPec : Bool) (pvn : Nat) (shf : Bool) (apid seqFlags name : Nat)
    (dataLengthArg : Option Nat)
    (pusVersion ackFlags serviceType serviceSubtype source : Option Nat)
    (data : Option (List Nat)) : Except PacketError PusTcPacket :=
  let secondaryHeaderLength := if shf then 3 + (if source.isSome then 2 else 0) else 0
  match ccsdsCreate hasPec pvn PacketType.TC shf apid seqFlags name data
      dataLengthArg secondaryHeaderLength with
  | .error e => .error e
  | .ok (header, payload) =>
    if header.secondaryHeaderFlag then
      if pusVersion.any (fun v => 15 < v) then .error .invalidPacket
      else if ackFlags.any (fun v => 15 < v) then .error .invalidPacket
      else if serviceType.any (fun v => 255 < v) then .error .invalidPacket
      else if serviceSubtype.any (fun v => 255 < v) then .error .invalidPacket
      else if source.any (fun v => 65535 < v) then .error .invalidPacket
      else .ok ⟨header,
        ⟨pusVersion.getD 2, ackFlags.getD 0, serviceType.getD 0,
          serviceSubtype.getD 0, source⟩, payload, hasPec⟩
    else .ok ⟨header, tcSecHdrDefault, payload, hasPec⟩

/-- `PusTcPacket.deserialize` with `validate_fields=True` (the validating
`create` path). -/
def PusTcPacket.deserialize (buffer : List Nat)
    (hasPec validatePec hasSourceField : Bool) : Except PacketError PusTcPacket :=
  match ccsdsDeserialize buffer hasPec validatePec with
  | .error e => .error e
  | .ok h =>
    let dataFieldExceptSourceLength :=
      (if h.secondaryHeaderFlag then 3 + (if hasSourceField then 2 else 0) else 0) +
        (if hasPec then 2 else 0)
    if buffer.length < 6 + dataFieldExceptSourceLength then .error .incompletePacket
    else
      let appDataLength : Int :=
        (h.dataLength : Int) + 1 - (dataFieldExceptSourceLength : Int)
      if h.secondaryHeaderFlag then
        let tmp := buffer.getD 6 0
        let serviceType := buffer.getD 7 0
        let serviceSubtype := buffer.getD 8 0
        let pusVersion := (tmp >>> 4) &&& 0b1111
        let ackFlags := tmp &&& 0b1111
        let source : Option Nat :=
          if hasSourceField then some (fromBytesBE ((buffer.drop 9).take 2)) else none
        let offset := if hasSourceField then 11 else 9
        let appData : Option (List Nat) :=
          if appDataLength ≠ 0 then
            some (pySlice buffer offset ((offset : Int) + appDataLength))
          else none
        tcCreate hasPec h.packetVersionNumber h.secondaryHeaderFlag h.apid
          h.seqFlags h.seqCountOrName (some h.dataLength) (some pusVersion)
          (some ackFlags) (some serviceType) (some serviceSubtype) source appData
      else
        let appData : Option (List Nat) :=
          if appDataLength ≠ 0 then
            some (pySlice buffer 6 ((6 : Int) + appDataLength))
          else none
        tcCreate hasPec h.packetVersionNumber h.secondaryHeaderFlag h.apid
          h.seqFlags h.seqCountOrName (some h.dataLength) none none none none
          none appData


/-! ### Bit-packing facts -/

theorem and1 (x : Nat) : x &&& 1 = x % 2 := Nat.and_one_is_mod x

theorem and3 (x : Nat) : x &&& 3 = x % 4 := by
  have h := Nat.and_pow_two_sub_one_eq_mod x 2
  norm_num at h
  exact h

theorem and7 (x : Nat) : x &&& 7 = x % 8 := by
  have h := Nat.and_pow_two_sub_one_eq_mod x 3
  norm_num at h
  exact h

theorem and15 (x : Nat) : x &&& 15 = x % 16 := by
  have h := Nat.and_pow_two_sub_one_eq_mod x 4
  norm_num at h
  exact h

theorem and2047 (x : Nat) : x &&& 2047 = x % 2048 := by
  have h := Nat.and_pow_two_sub_one_eq_mod x 11
  norm_num at h
  exact h

theorem and16383 (x : Nat) : x &&& 16383 = x % 16384 := by
  have h := Nat.and_pow_two_sub_one_eq_mod x 14
  norm_num at h
  exact h

/-- Bitwise or of numbers with disjoint bit ranges is addition. -/
theorem lor_eq_add {n : Nat} (x y : Nat) (hx : 2 ^ n ∣ x) (hy : y < 2 ^ n) :
    x ||| y = x + y := by
  induction n generalizing x y with
  | zero =>
    interval_cases y
    simp
  | succ n ih =>
    obtain ⟨k, rfl⟩ := hx
    have hx2 : (2 ^ (n + 1) * k) % 2 = 0 := by
      have h2 : (2 : Nat) ∣ 2 ^ (n + 1) * k :=
        Dvd.dvd.mul_right (dvd_pow_self 2 (Nat.succ_ne_zero n)) k
      omega
    have hdiv : (2 ^ (n + 1) * k) / 2 = 2 ^ n * k := by
      rw [pow_succ, Nat.mul_assoc, Nat.mul_comm 2 k, ← Nat.mul_assoc,
        Nat.mul_div_cancel _ (by norm_num)]
    have hydiv : y / 2 < 2 ^ n := by
      rw [Nat.div_lt_iff_lt_mul (by norm_num)]
      calc y < 2 ^ (n + 1) := hy
        _ = 2 ^ n * 2 := by ring
    have hih : (2 ^ (n + 1) * k) / 2 ||| y / 2 = (2 ^ (n + 1) * k) / 2 + y / 2 := by
      rw [hdiv]
      exact ih _ _ ⟨k, rfl⟩ hydiv
    have hmod : (2 ^ (n + 1) * k ||| y) % 2 = y % 2 := by
      rcases Nat.mod_two_eq_zero_or_one y with hy2 | hy2
      · rcases Nat.mod_two_eq_zero_or_one (2 ^ (n + 1) * k ||| y) with h | h
        · omega
        · rw [Nat.or_mod_two_eq_one] at h
          omega
      · rw [hy2]
        rw [Nat.or_mod_two_eq_one.mpr (Or.inr hy2)]
    have hor2 : (2 ^ (n + 1) * k ||| y) / 2 = (2 ^ (n + 1) * k) / 2 ||| y / 2 :=
      Nat.or_div_two
    have e1 := Nat.div_add_mod (2 ^ (n + 1) * k ||| y) 2
    have e2 := Nat.div_add_mod y 2
    omega

/-- The packed `packet_id` bit layout, in closed arithmetic form. -/
theorem pack4_eq (a b c d : Nat) (hb : b ≤ 1) (hc : c ≤ 1) (hd : d ≤ 2047) :
    a <<< 13 ||| b <<< 12 ||| c <<< 11 ||| d =
      a * 8192 + b * 4096 + c * 2048 + d := by
  rw [Nat.shiftLeft_eq, Nat.shiftLeft_eq, Nat.shiftLeft_eq]
  have h1 : a * 2 ^ 13 ||| b * 2 ^ 12 = a * 2 ^ 13 + b * 2 ^ 12 :=
    lor_eq_add (n := 13) _ _ ⟨a, by ring⟩ (by omega)
  rw [h1]
  have h2 : a * 2 ^ 13 + b * 2 ^ 12 ||| c * 2 ^ 11 =
      a * 2 ^ 13 + b * 2 ^ 12 + c * 2 ^ 11 :=
    lor_eq_add (n := 12) _ _ (Nat.dvd_add ⟨a * 2, by ring⟩ ⟨b, by ring⟩) (by omega)
  rw [h2]
  have h3 : a * 2 ^ 13 + b * 2 ^ 12 + c * 2 ^ 11 ||| d =
      a * 2 ^ 13 + b * 2 ^ 12 + c * 2 ^ 11 + d :=
    lor_eq_add (n := 11) _ _
      (Nat.dvd_add (Nat.dvd_add ⟨a * 4, by ring⟩ ⟨b * 2, by ring⟩) ⟨c, by ring⟩)
      (by omega)
  rw [h3]
  norm_num

/-- Field extraction from the packed `packet_id` layout. -/
theorem pack4_bits (a b c d : Nat) (ha : a ≤ 7) (hb : b ≤ 1) (hc : c ≤ 1)
    (hd : d ≤ 2047) :
    ((a * 8192 + b * 4096 + c * 2048 + d) >>> 13) &&& 7 = a ∧
    ((a * 8192 + b * 4096 + c * 2048 + d) >>> 12) &&& 1 = b ∧
    ((a * 8192 + b * 4096 + c * 2048 + d) >>> 11) &&& 1 = c ∧
    (a * 8192 + b * 4096 + c * 2048 + d) &&& 2047 = d ∧
    a * 8192 + b * 4096 + c * 2048 + d < 65536 := by
  simp only [Nat.shiftRight_eq_div_pow, and7, and1, and2047]
  norm_num
  all_goals omega

/-- The packed `seq_ctrl` bit layout. -/
theorem pack2_eq (a b : Nat) (hb : b ≤ 16383) :
    a <<< 14 ||| b = a * 16384 + b := by
  rw [Nat.shiftLeft_eq]
  have h1 : a * 2 ^ 14 ||| b = a * 2 ^ 14 + b :=
    lor_eq_add (n := 14) _ _ ⟨a, by ring⟩ (by omega)
  rw [h1]
  norm_num

theorem pack2_bits (a b : Nat) (ha : a ≤ 3) (hb : b ≤ 16383) :
    ((a * 16384 + b) >>> 14) &&& 3 = a ∧ (a * 16384 + b) &&& 16383 = b ∧
      a * 16384 + b < 65536 := by
  simp only [Nat.shiftRight_eq_div_pow, and3, and16383]
  norm_num
  all_goals omega

/-- The packed first byte of a PUS secondary header
(`pus_version << 4 | low-nibble`). -/
theorem packNibbles_eq (pv x : Nat) (hx : x ≤ 15) :
    (pv <<< 4) ||| x = pv * 16 + x := by
  rw [Nat.shiftLeft_eq]
  have h1 : pv * 2 ^ 4 ||| x = pv * 2 ^ 4 + x :=
    lor_eq_add (n := 4) _ _ ⟨pv, by ring⟩ (by omega)
  rw [h1]
  norm_num

theorem packNibbles_bits (pv x : Nat) (hpv : pv ≤ 15) (hx : x ≤ 15) :
    ((pv * 16 + x) >>> 4) &&& 15 = pv ∧ (pv * 16 + x) &&& 15 = x ∧
      pv * 16 + x < 256 := by
  simp only [Nat.shiftRight_eq_div_pow, and15]
  norm_num
  all_goals omega

theorem toBytesBE_two (v : Nat) (h : v < 65536) :
    toBytesBE 2 v = [v / 256, v % 256] := by
  have hd : v / 256 < 256 := Nat.div_lt_of_lt_mul (by omega)
  simp [toBytesBE, Nat.mod_eq_of_lt hd]


/-! ### Primary-header word specifications -/

theorem packetIdWord_spec (h : PacketPrimaryHeader)
    (hpvn : h.packetVersionNumber ≤ 7) (hapid : h.apid ≤ 2047) :
    (packetIdWord h >>> 13) &&& 7 = h.packetVersionNumber ∧
    ((packetIdWord h >>> 12) &&& 1) = (if h.packetType = PacketType.TC then 1 else 0) ∧
    ((packetIdWord h >>> 11) &&& 1) = (if h.secondaryHeaderFlag then 1 else 0) ∧
    packetIdWord h &&& 2047 = h.apid ∧ packetIdWord h < 65536 := by
  have hb : (if h.packetType = PacketType.TC then 1 else 0) ≤ 1 := by split <;> omega
  have hc : (if h.secondaryHeaderFlag then 1 else 0) ≤ 1 := by split <;> omega
  unfold packetIdWord
  rw [pack4_eq _ _ _ _ hb hc hapid]
  exact pack4_bits _ _ _ _ hpvn hb hc hapid

theorem seqCtrlWord_spec (h : PacketPrimaryHeader)
    (hsf : h.seqFlags ≤ 3) (hsc : h.seqCountOrName ≤ 16383) :
    (seqCtrlWord h >>> 14) &&& 3 = h.seqFlags ∧
    seqCtrlWord h &&& 16383 = h.seqCountOrName ∧ seqCtrlWord h < 65536 := by
  unfold seqCtrlWord
  rw [pack2_eq _ _ hsc]
  exact pack2_bits _ _ hsf hsc

theorem fromBytesBE_pair (a b : Nat) : fromBytesBE [a, b] = a * 256 + b := by
  simp [fromBytesBE]

/-- Deserializing a well-formed serialized primary header recovers the
header; the CRC hypothesis covers the packet-error-control check. -/
theorem ccsdsDeserialize_append (h : PacketPrimaryHeader) (rest : List Nat)
    (hasPec validatePec : Bool)
    (hpvn : h.packetVersionNumber ≤ 7) (hapid : h.apid ≤ 2047)
    (hsf : h.seqFlags ≤ 3) (hsc : h.seqCountOrName ≤ 16383)
    (hdl : h.dataLength ≤ 65535)
    (hlen : rest.length = h.dataLength + 1)
    (hcrc : hasPec = true → validatePec = true →
      calculateb (toBytesBE 2 (packetIdWord h) ++ toBytesBE 2 (seqCtrlWord h) ++
        toBytesBE 2 h.dataLength ++ rest) = 0) :
    ccsdsDeserialize (toBytesBE 2 (packetIdWord h) ++ toBytesBE 2 (seqCtrlWord h) ++
      toBytesBE 2 h.dataLength ++ rest) hasPec validatePec = .ok h := by
  obtain ⟨hid1, hid2, hid3, hid4, hidlt⟩ := packetIdWord_spec h hpvn hapid
  obtain ⟨hsq1, hsq2, hsqlt⟩ := seqCtrlWord_spec h hsf hsc
  set buf := toBytesBE 2 (packetIdWord h) ++ toBytesBE 2 (seqCtrlWord h) ++
    toBytesBE 2 h.dataLength ++ rest with hbuf
  have hbuflen : buf.length = 6 + h.dataLength + 1 := by
    simp [hbuf, hlen]
    omega
  have ht2 : buf.take 2 = toBytesBE 2 (packetIdWord h) :=
    List.take_left' (toBytesBE_length 2 _)
  have hd2 : buf.drop 2 = toBytesBE 2 (seqCtrlWord h) ++
      (toBytesBE 2 h.dataLength ++ rest) := by
    rw [hbuf]
    exact List.drop_left' (toBytesBE_length 2 _)
  have hd2t : (buf.drop 2).take 2 = toBytesBE 2 (seqCtrlWord h) := by
    rw [hd2]
    exact List.take_left' (toBytesBE_length 2 _)
  have hd4 : buf.drop 4 = toBytesBE 2 h.dataLength ++ rest := by
    have : buf.drop 4 = (buf.drop 2).drop 2 := by
      rw [List.drop_drop]
    rw [this, hd2, List.drop_left' (toBytesBE_length 2 _)]
  have hd4t : (buf.drop 4).take 2 = toBytesBE 2 h.dataLength := by
    rw [hd4]
    exact List.take_left' (toBytesBE_length 2 _)
  have hv1 : fromBytesBE (buf.take 2) = packetIdWord h := by
    rw [ht2, fromBytesBE_toBytesBE 2 _ (by norm_num [hidlt])]
  have hv2 : fromBytesBE ((buf.drop 2).take 2) = seqCtrlWord h := by
    rw [hd2t, fromBytesBE_toBytesBE 2 _ (by norm_num [hsqlt])]
  have hv3 : fromBytesBE ((buf.drop 4).take 2) = h.dataLength := by
    rw [hd4t, fromBytesBE_toBytesBE 2 _ (by norm_num; omega)]
  rw [ccsdsDeserialize]
  rw [if_neg (by omega)]
  simp only [hv1, hv2, hv3]
  rw [if_neg (by omega)]
  rw [if_neg (by omega)]
  have hcrcFalse : (hasPec && validatePec &&
      !(calculateb (buf.take (6 + h.dataLength + 1)) == 0)) = false := by
    by_cases hb : hasPec = true ∧ validatePec = true
    · obtain ⟨hp, hvp⟩ := hb
      have h0 := hcrc hp hvp
      have htake : buf.take (6 + h.dataLength + 1) = buf := by
        rw [← hbuflen]
        exact List.take_length buf
      rw [hp, hvp, htake]
      simp [h0]
    · have hor : hasPec = false ∨ validatePec = false := by
        rcases Bool.eq_false_or_eq_true hasPec with h1 | h1
        · rcases Bool.eq_false_or_eq_true validatePec with h2 | h2
          · exact absurd ⟨h1, h2⟩ hb
          · exact Or.inr h2
        · exact Or.inl h1
      rcases hor with h1 | h1 <;> simp [h1]
  rw [hcrcFalse]
  simp only [Bool.false_eq_true, if_false]
  congr 1
  have hflag : (decide ((packetIdWord h >>> 11) &&& 1 = 1)) = h.secondaryHeaderFlag := by
    rw [hid3]
    cases hf : h.secondaryHeaderFlag <;> simp
  have hptype : (if (packetIdWord h >>> 12) &&& 1 = 1 then PacketType.TC else PacketType.TM) =
      h.packetType := by
    rw [hid2]
    cases hp : h.packetType <;> simp
  exact PacketPrimaryHeader.ext hid1 hptype hflag hid4 hsq1 hsq2 rfl


/-! ### TC validity and round trip -/

def tcSourceFieldSize (p : PusTcPacket) : Nat :=
  if p.secondaryHeader.source.isSome then 2 else 0

def pecFieldSize (b : Bool) : Nat := if b then 2 else 0

/-- A valid PUS TC packet: the field ranges `PusTcPacket.create` enforces
(with a secondary header present), the data-length invariant it establishes
(`data_length` = secondary-header bytes + payload bytes + PEC bytes − 1) and
the size ceiling it checks. -/
def ValidTc (p : PusTcPacket) : Prop :=
  p.header.packetVersionNumber = 0 ∧
  p.header.packetType = PacketType.TC ∧
  p.header.secondaryHeaderFlag = true ∧
  p.header.apid ≤ 2047 ∧
  p.header.seqFlags ≤ 3 ∧
  p.header.seqCountOrName ≤ 16383 ∧
  p.secondaryHeader.pusVersion ≤ 15 ∧
  p.secondaryHeader.ackFlags ≤ 15 ∧
  p.secondaryHeader.serviceType ≤ 255 ∧
  p.secondaryHeader.serviceSubtype ≤ 255 ∧
  p.secondaryHeader.source.getD 0 ≤ 65535 ∧
  (∀ b ∈ p.payload, b < 256) ∧
  p.header.dataLength + 1 =
    3 + tcSourceFieldSize p + p.payload.length + pecFieldSize p.hasPec ∧
  p.header.dataLength + 1 + (3 + tcSourceFieldSize p + pecFieldSize p.hasPec) ≤ 65536

instance (p : PusTcPacket) : Decidable (ValidTc p) := by
  unfold ValidTc
  infer_instance

theorem tcSerializeWithoutPec_shape (p : PusTcPacket)
    (hshf : p.header.secondaryHeaderFlag = true) :
    p.serializeWithoutPec = toBytesBE 2 (packetIdWord p.header) ++
      (toBytesBE 2 (seqCtrlWord p.header) ++ (toBytesBE 2 p.header.dataLength ++
      ([(p.secondaryHeader.pusVersion <<< 4) ||| p.secondaryHeader.ackFlags,
        p.secondaryHeader.serviceType, p.secondaryHeader.serviceSubtype] ++
      ((match p.secondaryHeader.source with
        | some s => toBytesBE 2 s
        | none => []) ++ p.payload)))) := by
  simp [PusTcPacket.serializeWithoutPec, ccsdsSerialize, hshf]

theorem tc_serialize_shape (p : PusTcPacket)
    (hshf : p.header.secondaryHeaderFlag = true) :
    p.serialize = toBytesBE 2 (packetIdWord p.header) ++
      (toBytesBE 2 (seqCtrlWord p.header) ++ (toBytesBE 2 p.header.dataLength ++
      ([(p.secondaryHeader.pusVersion <<< 4) ||| p.secondaryHeader.ackFlags,
        p.secondaryHeader.serviceType, p.secondaryHeader.serviceSubtype] ++
      ((match p.secondaryHeader.source with
        | some s => toBytesBE 2 s
        | none => []) ++ (p.payload ++
      (if p.hasPec then toBytesBE 2 (calculateb p.serializeWithoutPec)
        else [])))))) := by
  rw [PusTcPacket.serialize, tcSerializeWithoutPec_shape p hshf]
  simp

/-- Serialized length of a valid TC packet is `6 + data_length + 1`. -/
theorem tc_serialize_length (p : PusTcPacket) (hv : ValidTc p) :
    p.serialize.length = 6 + p.header.dataLength + 1 := by
  obtain ⟨hpvn, hpt, hshf, hapid, hsf, hsc, hpv, hak, hst, hsu, hsrc, hpl, hdl, hceil⟩ := hv
  rw [tc_serialize_shape p hshf]
  rcases hso : p.secondaryHeader.source with _ | sv <;>
    rcases hpec : p.hasPec <;>
    simp [hso, hpec, tcSourceFieldSize, pecFieldSize] at hdl ⊢ <;>
    omega

/-- The PEC appended by `serialize` makes the receiver CRC of the whole
packet zero. -/
theorem tc_serialize_crc (p : PusTcPacket) (hpec : p.hasPec = true) :
    calculateb p.serialize = 0 := by
  rw [PusTcPacket.serialize, hpec]
  simp only [if_true]
  rw [toBytesBE_two _ (calculateb_lt _)]
  exact calculateb_append_pec _

/-- `PusTcPacket.create` succeeds on the fields of a valid packet and
rebuilds that packet. -/
theorem tcCreate_ok (p : PusTcPacket) (hv : ValidTc p) (appData : Option (List Nat))
    (happ : appData.getD [] = p.payload) :
    tcCreate p.hasPec p.header.packetVersionNumber true
      p.header.apid p.header.seqFlags p.header.seqCountOrName
      (some p.header.dataLength) (some p.secondaryHeader.pusVersion)
      (some p.secondaryHeader.ackFlags) (some p.secondaryHeader.serviceType)
      (some p.secondaryHeader.serviceSubtype) p.secondaryHeader.source appData =
      Except.ok p := by
  obtain ⟨hpvn, hpt, hshf, hapid, hsf, hsc, hpv, hak, hst, hsu, hsrc, hpl, hdl, hceil⟩ := hv
  simp only [tcSourceFieldSize, pecFieldSize] at hdl hceil
  rw [tcCreate, ccsdsCreate]
  rw [if_neg (by omega)]
  rw [if_neg (by omega)]
  rw [if_neg (by omega)]
  have hdlne : p.header.dataLength ≠ 0 := by
    rcases hso : p.secondaryHeader.source with _ | sv <;>
      rcases hpc : p.hasPec <;>
      simp [hso, hpc] at hdl <;> omega
  simp only [hshf, if_true, Option.isSome]
  rw [if_pos hdlne]
  rw [if_neg (by
    rcases hso : p.secondaryHeader.source with _ | sv <;>
      rcases hpc : p.hasPec <;>
      simp [hso, hpc] at hdl hceil ⊢ <;> omega)]
  rw [if_neg (by
    rw [happ]
    rcases hso : p.secondaryHeader.source with _ | sv <;>
      rcases hpc : p.hasPec <;>
      simp [hso, hpc] at hdl ⊢ <;> omega)]
  simp only [hshf, if_true]
  rw [if_neg (by simp; omega)]
  rw [if_neg (by simp; omega)]
  rw [if_neg (by simp; omega)]
  rw [if_neg (by simp; omega)]
  rw [if_neg (by
    rcases hso : p.secondaryHeader.source with _ | sv <;> simp [hso] at hsrc ⊢
    omega)]
  rw [Except.ok.injEq]
  ext1
  · exact PacketPrimaryHeader.ext rfl hpt.symm hshf.symm rfl rfl rfl rfl
  · exact TcSecondaryHeader.ext rfl rfl rfl rfl rfl
  · exact happ
  · rfl


theorem tc_roundtrip (p : PusTcPacket) (hv : ValidTc p) :
    PusTcPacket.deserialize p.serialize p.hasPec true
      p.secondaryHeader.source.isSome = Except.ok p := by
  have hv' := hv
  obtain ⟨hpvn, hpt, hshf, hapid, hsf, hsc, hpv, hak, hst, hsu, hsrc, hpl, hdl, hceil⟩ := hv'
  obtain ⟨hid1, hid2, hid3, hid4, hidlt⟩ := packetIdWord_spec p.header (by omega) hapid
  obtain ⟨hsq1, hsq2, hsqlt⟩ := seqCtrlWord_spec p.header hsf hsc
  have hdl65535 : p.header.dataLength ≤ 65535 := by omega
  -- the serialized buffer in primary-header ++ rest form
  have hshape := tc_serialize_shape p hshf
  set tmpv := (p.secondaryHeader.pusVersion <<< 4) ||| p.secondaryHeader.ackFlags
    with htmpdef
  set srcB := (match p.secondaryHeader.source with
    | some s => toBytesBE 2 s
    | none => []) with hsrcBdef
  set pecB := (if p.hasPec then toBytesBE 2 (calculateb p.serializeWithoutPec)
    else []) with hpecBdef
  set rest := [tmpv, p.secondaryHeader.serviceType, p.secondaryHeader.serviceSubtype] ++
    (srcB ++ (p.payload ++ pecB)) with hrestdef
  have hsrcBlen : srcB.length = tcSourceFieldSize p := by
    rcases hso : p.secondaryHeader.source with _ | sv <;>
      simp [hsrcBdef, hso, tcSourceFieldSize]
  have hpecBlen : pecB.length = pecFieldSize p.hasPec := by
    rcases hpc : p.hasPec <;> simp [hpecBdef, hpc, pecFieldSize]
  have hrestlen : rest.length = p.header.dataLength + 1 := by
    simp [hrestdef, hsrcBlen, hpecBlen]
    omega
  have hccsds : ccsdsDeserialize p.serialize p.hasPec true = .ok p.header := by
    rw [hshape]
    exact ccsdsDeserialize_append p.header rest p.hasPec true (by omega) hapid hsf
      hsc hdl65535 hrestlen
      (by
        intro hp _
        have := tc_serialize_crc p hp
        rw [hshape] at this
        exact this)
  rw [PusTcPacket.deserialize, hccsds]
  simp only [hshf, if_true]
  have hpidB := toBytesBE_two _ hidlt
  have hscwB := toBytesBE_two _ hsqlt
  have hdlB := toBytesBE_two _ (show p.header.dataLength < 65536 by omega)
  have hcons : p.serialize =
      packetIdWord p.header / 256 :: packetIdWord p.header % 256 ::
      seqCtrlWord p.header / 256 :: seqCtrlWord p.header % 256 ::
      p.header.dataLength / 256 :: p.header.dataLength % 256 ::
      tmpv :: p.secondaryHeader.serviceType :: p.secondaryHeader.serviceSubtype ::
      (srcB ++ (p.payload ++ pecB)) := by
    rw [hshape, hpidB, hscwB, hdlB, hrestdef]
    simp
  have hserlen : p.serialize.length = 6 + p.header.dataLength + 1 := by
    rw [hshape]
    simp [hrestlen]
    omega
  have hg6 : p.serialize.getD 6 0 = tmpv := by
    rw [hcons]
    rfl
  have hg7 : p.serialize.getD 7 0 = p.secondaryHeader.serviceType := by
    rw [hcons]
    rfl
  have hg8 : p.serialize.getD 8 0 = p.secondaryHeader.serviceSubtype := by
    rw [hcons]
    rfl
  have htmp_eq : tmpv = p.secondaryHeader.pusVersion * 16 + p.secondaryHeader.ackFlags :=
    packNibbles_eq _ _ hak
  obtain ⟨htmp1, htmp2, htmplt⟩ := packNibbles_bits _ _ hpv hak
  have hg6v : (p.serialize.getD 6 0 >>> 4) &&& 15 = p.secondaryHeader.pusVersion := by
    rw [hg6, htmp_eq]
    exact htmp1
  have hg6a : p.serialize.getD 6 0 &&& 15 = p.secondaryHeader.ackFlags := by
    rw [hg6, htmp_eq]
    exact htmp2
  simp only [tcSourceFieldSize, pecFieldSize] at hdl hceil
  rcases hso : p.secondaryHeader.source with _ | sv
  · -- no source-id field
    have hsrcB0 : srcB = [] := by rw [hsrcBdef, hso]
    simp only [hso, Option.isSome_none, Bool.false_eq_true, if_false] at hdl hceil ⊢
    have hdrop9 : p.serialize.drop 9 = p.payload ++ pecB := by
      rw [hcons, hsrcB0]
      simp
    rw [if_neg (by
      rw [hserlen]
      rcases hpc : p.hasPec <;> simp [hpc] at hdl ⊢ <;> omega)]
    rw [hg6v, hg6a, hg7, hg8]
    have harith : (p.header.dataLength : Int) + 1 -
        ((3 + 0 + if p.hasPec = true then 2 else 0 : Nat) : Int) =
        (p.payload.length : Int) := by
      rcases hpc : p.hasPec <;> simp [hpc] at hdl ⊢ <;> push_cast <;> omega
    rw [harith]
    have happ : (if (p.payload.length : Int) ≠ 0 then
        some (pySlice p.serialize 9 (((9 : Nat) : Int) + (p.payload.length : Int)))
        else none).getD [] = p.payload := by
      by_cases hnil : p.payload = []
      · rw [if_neg (by simp [hnil])]
        simp [hnil]
      · rw [if_pos (by simp [hnil])]
        simp only [Option.getD_some]
        unfold pySlice
        rw [if_neg (by omega)]
        dsimp only
        rw [hdrop9]
        have ht : ((((9 : Nat) : Int) + (p.payload.length : Int)) -
            ((9 : Nat) : Int)).toNat = p.payload.length := by omega
        rw [ht]
        exact List.take_left' rfl
    rw [← hso]
    exact tcCreate_ok p hv _ happ
  · -- source-id field present
    have hsrcB2 : srcB = toBytesBE 2 sv := by rw [hsrcBdef, hso]
    simp only [hso, Option.isSome_some, if_true] at hdl hceil ⊢
    rw [hso] at hsrc
    simp only [Option.getD_some] at hsrc
    have hdrop9 : p.serialize.drop 9 = toBytesBE 2 sv ++ (p.payload ++ pecB) := by
      rw [hcons, hsrcB2]
      simp
    have hdrop11 : p.serialize.drop 11 = p.payload ++ pecB := by
      have h2 : p.serialize.drop 11 = (p.serialize.drop 9).drop 2 := by
        rw [List.drop_drop]
      rw [h2, hdrop9, List.drop_left' (toBytesBE_length 2 _)]
    rw [if_neg (by
      rw [hserlen]
      rcases hpc : p.hasPec <;> simp [hpc] at hdl ⊢ <;> omega)]
    rw [hg6v, hg6a, hg7, hg8]
    have hsvparse : fromBytesBE ((p.serialize.drop 9).take 2) = sv := by
      rw [hdrop9, List.take_left' (toBytesBE_length 2 _)]
      exact fromBytesBE_toBytesBE 2 sv (by norm_num; omega)
    rw [hsvparse]
    have harith : (p.header.dataLength : Int) + 1 -
        ((3 + 2 + if p.hasPec = true then 2 else 0 : Nat) : Int) =
        (p.payload.length : Int) := by
      rcases hpc : p.hasPec <;> simp [hpc] at hdl ⊢ <;> push_cast <;> omega
    rw [harith]
    have happ : (if (p.payload.length : Int) ≠ 0 then
        some (pySlice p.serialize 11 (((11 : Nat) : Int) + (p.payload.length : Int)))
        else none).getD [] = p.payload := by
      by_cases hnil : p.payload = []
      · rw [if_neg (by simp [hnil])]
        simp [hnil]
      · rw [if_pos (by simp [hnil])]
        simp only [Option.getD_some]
        unfold pySlice
        rw [if_neg (by omega)]
        dsimp only
        rw [hdrop11]
        have ht : ((((11 : Nat) : Int) + (p.payload.length : Int)) -
            ((11 : Nat) : Int)).toNat = p.payload.length := by omega
        rw [ht]
        exact List.take_left' rfl
    rw [← hso]
    exact tcCreate_ok p hv _ happ


/-! ## CUC time values (`puslib/time.py`) -/

/-- `_TimeFormat._pack_preamble` in the `epoch=None` case the library uses
(time-code identification TAI = 1). -/
def packPreamble (basicLen fracLen : Nat) : List Nat :=
  let ext := if 4 < basicLen ∨ 3 < fracLen then 1 else 0
  let btuNum := min 3 (basicLen - 1)
  let bfuNum := min 3 fracLen
  let btuAdd := basicLen - 4
  let bfuAdd := fracLen - 3
  let octet1 := ext <<< 7 ||| 1 <<< 4 ||| btuNum <<< 2 ||| bfuNum
  octet1 :: (if ext = 1 then [(btuAdd <<< 5) ||| (bfuAdd <<< 2)] else [])

/-- A `CucTime` value: basic/fractional unit octet counts, preamble
presence, the stored preamble bytes, and the `_seconds` / `_fraction`
fields (`_fraction` is `None` exactly when the format has no fractional
octets, mirroring the constructor). -/
@[ext]
structure CucTimeV where
  basicLen : Nat
  fracLen : Nat
  hasPreamble : Bool
  preamble : List Nat
  seconds : Nat
  fraction : Option Nat
deriving DecidableEq

/-- The `CucTime` constructor with an auto-computed preamble
(`CucTime(basic, frac, seconds, fraction, has_preamble)` with
`epoch=None`, `preamble=None`). -/
def cucInit (basicLen fracLen seconds fraction : Nat) (hasPreamble : Bool) : CucTimeV :=
  { basicLen := basicLen, fracLen := fracLen, hasPreamble := hasPreamble,
    preamble := packPreamble basicLen fracLen, seconds := seconds,
    fraction := if fracLen ≠ 0 then some fraction else none }

/-- `CucTime.__len__`. -/
def cucLen (t : CucTimeV) : Nat :=
  (if t.hasPreamble then t.preamble.length else 0) + t.basicLen + t.fracLen

/-- `CucTime.__bytes__`. -/
def cucBytes (t : CucTimeV) : List Nat :=
  (if t.hasPreamble then t.preamble else []) ++ toBytesBE t.basicLen t.seconds ++
    (if t.fracLen ≠ 0 then toBytesBE t.fracLen (t.fraction.getD 0) else [])

/-- `CucTime.from_bytes`: reads seconds and fraction in place; note that the
fraction field is always assigned (an empty slice reads as 0). -/
def cucFromBytes (t : CucTimeV) (buffer : List Nat) : Except PacketError CucTimeV :=
  let preambleSize := if t.hasPreamble then t.preamble.length else 0
  if buffer.length < preambleSize + t.basicLen + t.fracLen then .error .valueError
  else .ok { t with
    seconds := fromBytesBE ((buffer.drop preambleSize).take t.basicLen),
    fraction := some (fromBytesBE ((buffer.drop (preambleSize + t.basicLen)).take t.fracLen)) }

/-! ## PUS TM packets (`src/puslib/packet.py`) -/

/-- `_PacketSecondaryHeaderTm`. -/
@[ext]
structure TmSecondaryHeader where
  pusVersion : Nat
  spacecraftTimeRefStatus : Nat
  serviceType : Nat
  serviceSubtype : Nat
  msgTypeCounter : Option Nat
  destination : Option Nat
  time : Option CucTimeV
deriving DecidableEq

/-- Dataclass defaults of `_PacketSecondaryHeaderTm`. -/
def tmSecHdrDefault : TmSecondaryHeader := ⟨2, 0, 0, 0, none, none, none⟩

@[ext]
structure PusTmPacket where
  header : PacketPrimaryHeader
  secondaryHeader : TmSecondaryHeader
  payload : List Nat
  hasPec : Bool
deriving DecidableEq

/-- The `packet_without_pec` intermediate of `PusTmPacket.serialize`.  The
secondary-header parts are emitted unconditionally (the Python code does not
test the flag here); `bytes(None)` for a missing time raises `TypeError`. -/
def PusTmPacket.serializeWithoutPec (p : PusTmPacket) : Except PacketError (List Nat) :=
  match p.secondaryHeader.time with
  | none => .error .typeError
  | some t => .ok (ccsdsSerialize p.header p.payload ++
      [(p.secondaryHeader.pusVersion <<< 4) ||| p.secondaryHeader.spacecraftTimeRefStatus,
        p.secondaryHeader.serviceType, p.secondaryHeader.serviceSubtype] ++
      (match p.secondaryHeader.msgTypeCounter with
        | some c => toBytesBE 2 c
        | none => []) ++
      (match p.secondaryHeader.destination with
        | some d => toBytesBE 2 d
        | none => []) ++
      cucBytes t ++ p.payload)

/-- `PusTmPacket.serialize`. -/
def PusTmPacket.serialize (p : PusTmPacket) : Except PacketError (List Nat) :=
  match p.serializeWithoutPec with
  | .error e => .error e
  | .ok w => .ok (w ++ (if p.hasPec then toBytesBE 2 (calculateb w) else []))

/-- `PusTmPacket.create`, specialized to the keyword arguments passed by
`PusTmPacket.deserialize`.  `spacecraft_time_ref_status` is validated
unconditionally inside the secondary-header block (`None` there is a
`TypeError`); `if time:` tests Python truthiness, i.e. `len(time) != 0`. -/
def tmCreate (hasPec : Bool) (pvn : Nat) (shf : Bool) (apid seqFlags seqCount : Nat)
    (dataLengthArg : Option Nat)
    (pusVersion timeRefStatus serviceType serviceSubtype msgTypeCounter destination :
      Option Nat)
    (time : Option CucTimeV) (data : Option (List Nat)) :
    Except PacketError PusTmPacket :=
  let secLen : Except PacketError Nat :=
    if shf then
      match time with
      | some t => .ok (3 + (if msgTypeCounter.isSome then 2 else 0) +
          (if destination.isSome then 2 else 0) + cucLen t)
      | none => .error .typeError
    else .ok 0
  match secLen with
  | .error e => .error e
  | .ok shl =>
    match ccsdsCreate hasPec pvn PacketType.TM shf apid seqFlags seqCount data
        dataLengthArg shl with
    | .error e => .error e
    | .ok (header, payload) =>
      if header.secondaryHeaderFlag then
        if pusVersion.any (fun v => 15 < v) then .error .invalidPacket
        else
          match timeRefStatus with
          | none => .error .typeError
          | some tr =>
            if 15 < tr then .error .invalidPacket
            else if serviceType.any (fun v => 255 < v) then .error .invalidPacket
            else if serviceSubtype.any (fun v => 255 < v) then .error .invalidPacket
            else if msgTypeCounter.any (fun v => 65535 < v) then .error .invalidPacket
            else if destination.any (fun v => 65535 < v) then .error .invalidPacket
            else .ok ⟨header,
              ⟨pusVersion.getD 2, tr, serviceType.getD 0, serviceSubtype.getD 0,
                msgTypeCounter, destination,
                match time with
                | some t => if cucLen t ≠ 0 then some t else none
                | none => none⟩, payload, hasPec⟩
      else .ok ⟨header, tmSecHdrDefault, payload, hasPec⟩

/-- `PusTmPacket.deserialize` with `validate_fields=True` and a
caller-supplied `cuc_time` expectation (the branch at `if cuc_time:`; the
self-describing-preamble branch `CucTime.deserialize` is taken only when no
expectation is passed and is not needed for the claims below). -/
def tmDeserializeExp (buffer : List Nat) (hasPec validatePec : Bool)
    (cucTime : CucTimeV) (hasTypeCounterField hasDestinationField : Bool) :
    Except PacketError PusTmPacket :=
  match ccsdsDeserialize buffer hasPec validatePec with
  | .error e => .error e
  | .ok h =>
    if h.secondaryHeaderFlag then
      let dfesl := 3 + (if hasTypeCounterField then 2 else 0) +
        (if hasDestinationField then 2 else 0) + cucLen cucTime +
        (if hasPec then 2 else 0)
      if buffer.length < 6 + dfesl then .error .incompletePacket
      else
        let tmp := buffer.getD 6 0
        let serviceType := buffer.getD 7 0
        let serviceSubtype := buffer.getD 8 0
        let pusVersion := (tmp >>> 4) &&& 0b1111
        let timeRef := tmp &&& 0b1111
        let afterCounter := 9 + (if hasTypeCounterField then 2 else 0)
        let msgTypeCounter : Option Nat :=
          if hasTypeCounterField then some (fromBytesBE ((buffer.drop 9).take 2))
          else none
        let destination : Option Nat :=
          if hasDestinationField
            then some (fromBytesBE ((buffer.drop afterCounter).take 2))
          else none
        let offset0 := afterCounter + (if hasDestinationField then 2 else 0)
        match cucFromBytes cucTime (buffer.drop offset0) with
        | .error e => .error e
        | .ok t =>
          let offset := offset0 + cucLen cucTime
          let sourceDataLength : Int := (h.dataLength : Int) + 1 - (dfesl : Int)
          let sourceData : Option (List Nat) :=
            if sourceDataLength ≠ 0 then
              some (pySlice buffer offset ((offset : Int) + sourceDataLength))
            else none
          tmCreate hasPec h.packetVersionNumber h.secondaryHeaderFlag h.apid
            h.seqFlags h.seqCountOrName (some h.dataLength) (some pusVersion)
            (some timeRef) (some serviceType) (some serviceSubtype) msgTypeCounter
            destination (some t) sourceData
    else
      let dfesl := if hasPec then 2 else 0
      if buffer.length < 6 + dfesl then .error .incompletePacket
      else
        let sourceDataLength : Int := (h.dataLength : Int) + 1 - (dfesl : Int)
        let sourceData : Option (List Nat) :=
          if sourceDataLength ≠ 0 then
            some (pySlice buffer 6 ((6 : Int) + sourceDataLength))
          else none
        tmCreate hasPec h.packetVersionNumber h.secondaryHeaderFlag h.apid h.seqFlags
          h.seqCountOrName (some h.dataLength) none none none none none none none
          sourceData


/-! ### TM validity and round trip -/

/-- A fixed placeholder used only to express `time.getD`; valid packets
always carry a time. -/
def cucPlaceholder : CucTimeV := ⟨1, 0, true, [], 0, none⟩

def timeOf (p : PusTmPacket) : CucTimeV :=
  p.secondaryHeader.time.getD cucPlaceholder

def tmCounterSize (p : PusTmPacket) : Nat :=
  if p.secondaryHeader.msgTypeCounter.isSome then 2 else 0

def tmDestSize (p : PusTmPacket) : Nat :=
  if p.secondaryHeader.destination.isSome then 2 else 0

/-- A well-formed CUC time: the format ranges `_TimeFormat` enforces, an
auto-computed preamble, in-range seconds/fraction, and the
constructor invariant that `_fraction` is `None` exactly for formats
without fractional octets. -/
def ValidCuc (t : CucTimeV) : Prop :=
  1 ≤ t.basicLen ∧ t.basicLen ≤ 7 ∧ t.fracLen ≤ 10 ∧
  t.preamble = packPreamble t.basicLen t.fracLen ∧
  t.seconds < 256 ^ t.basicLen ∧
  (if t.fracLen = 0 then t.fraction = none
   else t.fraction = some (t.fraction.getD 0) ∧ t.fraction.getD 0 < 256 ^ t.fracLen)

/-- A valid PUS TM packet, mirroring what `PusTmPacket.create` can build. -/
def ValidTm (p : PusTmPacket) : Prop :=
  p.header.packetVersionNumber = 0 ∧
  p.header.packetType = PacketType.TM ∧
  p.header.secondaryHeaderFlag = true ∧
  p.header.apid ≤ 2047 ∧
  p.header.seqFlags ≤ 3 ∧
  p.header.seqCountOrName ≤ 16383 ∧
  p.secondaryHeader.pusVersion ≤ 15 ∧
  p.secondaryHeader.spacecraftTimeRefStatus ≤ 15 ∧
  p.secondaryHeader.serviceType ≤ 255 ∧
  p.secondaryHeader.serviceSubtype ≤ 255 ∧
  p.secondaryHeader.msgTypeCounter.getD 0 ≤ 65535 ∧
  p.secondaryHeader.destination.getD 0 ≤ 65535 ∧
  p.secondaryHeader.time = some (timeOf p) ∧
  ValidCuc (timeOf p) ∧
  (∀ b ∈ p.payload, b < 256) ∧
  p.header.dataLength + 1 = 3 + tmCounterSize p + tmDestSize p + cucLen (timeOf p) +
    p.payload.length + pecFieldSize p.hasPec ∧
  p.header.dataLength + 1 + (3 + tmCounterSize p + tmDestSize p + cucLen (timeOf p) +
    pecFieldSize p.hasPec) ≤ 65536

instance (t : CucTimeV) : Decidable (ValidCuc t) := by
  unfold ValidCuc
  infer_instance

instance (p : PusTmPacket) : Decidable (ValidTm p) := by
  unfold ValidTm
  infer_instance

/-- The matching deserialization expectation for a time format: a fresh
`CucTime` of the same basic/fractional lengths and preamble setting. -/
def cucExpect (t : CucTimeV) : CucTimeV :=
  cucInit t.basicLen t.fracLen 0 0 t.hasPreamble

theorem cucBytes_length (t : CucTimeV) : (cucBytes t).length = cucLen t := by
  by_cases hf : t.fracLen = 0 <;> by_cases hp : t.hasPreamble <;>
    simp [cucBytes, cucLen, hf, hp] <;> omega

/-- `PusTmPacket.create` succeeds on the fields of a valid packet and
rebuilds that packet. -/
theorem tmCreate_ok (p : PusTmPacket) (hv : ValidTm p)
    (sourceData : Option (List Nat)) (hsd : sourceData.getD [] = p.payload) :
    tmCreate p.hasPec p.header.packetVersionNumber true p.header.apid
      p.header.seqFlags p.header.seqCountOrName (some p.header.dataLength)
      (some p.secondaryHeader.pusVersion)
      (some p.secondaryHeader.spacecraftTimeRefStatus)
      (some p.secondaryHeader.serviceType) (some p.secondaryHeader.serviceSubtype)
      p.secondaryHeader.msgTypeCounter p.secondaryHeader.destination
      (some (timeOf p)) sourceData = Except.ok p := by
  obtain ⟨hpvn, hpt, hshf, hapid, hsf, hsc, hpv, htr, hst, hsu, hctr, hdst, htime,
    hcuc, hpl, hdl, hceil⟩ := hv
  obtain ⟨hb1, hb7, hf10, hpre, hsec, hfr⟩ := hcuc
  simp only [tmCounterSize, tmDestSize, pecFieldSize] at hdl hceil
  have hcuclen : cucLen (timeOf p) ≠ 0 := by
    unfold cucLen
    omega
  rw [tmCreate]
  simp only [if_true]
  rw [ccsdsCreate]
  rw [if_neg (by omega)]
  rw [if_neg (by omega)]
  rw [if_neg (by omega)]
  have hdlne : p.header.dataLength ≠ 0 := by
    rcases hc : p.secondaryHeader.msgTypeCounter.isSome <;>
      rcases hd : p.secondaryHeader.destination.isSome <;>
      rcases hpc : p.hasPec <;>
      simp [hc, hd, hpc] at hdl <;> omega
  dsimp only
  rw [if_pos hdlne]
  rw [if_neg (by
    rcases hc : p.secondaryHeader.msgTypeCounter.isSome <;>
      rcases hd : p.secondaryHeader.destination.isSome <;>
      rcases hpc : p.hasPec <;>
      simp [hc, hd, hpc] at hdl hceil ⊢ <;> omega)]
  rw [if_neg (by
    rw [hsd]
    rcases hc : p.secondaryHeader.msgTypeCounter.isSome <;>
      rcases hd : p.secondaryHeader.destination.isSome <;>
      rcases hpc : p.hasPec <;>
      simp [hc, hd, hpc] at hdl ⊢ <;> omega)]
  simp only [if_true]
  rw [if_neg (by simp; omega)]
  rw [if_neg (by omega)]
  rw [if_neg (by simp; omega)]
  rw [if_neg (by simp; omega)]
  rw [if_neg (by
    rcases hc : p.secondaryHeader.msgTypeCounter with _ | cv <;> simp [hc] at hctr ⊢
    omega)]
  rw [if_neg (by
    rcases hd : p.secondaryHeader.destination with _ | dv <;> simp [hd] at hdst ⊢
    omega)]
  rw [if_pos hcuclen, Except.ok.injEq]
  ext1
  · exact PacketPrimaryHeader.ext rfl hpt.symm hshf.symm rfl rfl rfl rfl
  · exact TmSecondaryHeader.ext rfl rfl rfl rfl rfl rfl htime.symm
  · exact hsd
  · rfl


/-- The without-PEC byte image of a TM packet with secondary header and
time `t`, in right-associated form (provably the value inside
`PusTmPacket.serializeWithoutPec`). -/
def tmBytesNoPec (p : PusTmPacket) (t : CucTimeV) : List Nat :=
  toBytesBE 2 (packetIdWord p.header) ++ (toBytesBE 2 (seqCtrlWord p.header) ++
    (toBytesBE 2 p.header.dataLength ++
    ([(p.secondaryHeader.pusVersion <<< 4) ||| p.secondaryHeader.spacecraftTimeRefStatus,
      p.secondaryHeader.serviceType, p.secondaryHeader.serviceSubtype] ++
    ((match p.secondaryHeader.msgTypeCounter with
      | some c => toBytesBE 2 c
      | none => []) ++
    ((match p.secondaryHeader.destination with
      | some d => toBytesBE 2 d
      | none => []) ++
    (cucBytes t ++ p.payload))))))

theorem tm_serializeWithoutPec_eq (p : PusTmPacket) (t : CucTimeV)
    (hshf : p.header.secondaryHeaderFlag = true)
    (htime : p.secondaryHeader.time = some t) :
    p.serializeWithoutPec = .ok (tmBytesNoPec p t) := by
  rw [PusTmPacket.serializeWithoutPec, htime]
  simp [ccsdsSerialize, hshf, tmBytesNoPec]

theorem tm_serialize_eq (p : PusTmPacket) (t : CucTimeV)
    (hshf : p.header.secondaryHeaderFlag = true)
    (htime : p.secondaryHeader.time = some t) :
    p.serialize = .ok (tmBytesNoPec p t ++
      (if p.hasPec then toBytesBE 2 (calculateb (tmBytesNoPec p t)) else [])) := by
  rw [PusTmPacket.serialize, tm_serializeWithoutPec_eq p t hshf htime]

/-- A matching expectation reads back exactly the serialized time value
(when the format has fractional octets). -/
theorem cucFromBytes_expect (t : CucTimeV) (hvc : ValidCuc t)
    (hfrac : t.fracLen ≠ 0) (rest2 : List Nat) :
    cucFromBytes (cucExpect t) (cucBytes t ++ rest2) = .ok t := by
  obtain ⟨hb1, hb7, hf10, hpre, hsec, hfr⟩ := hvc
  rw [if_neg hfrac] at hfr
  obtain ⟨hfrS, hfrLt⟩ := hfr
  have hpreLen : (if t.hasPreamble then t.preamble else []).length =
      (if (cucExpect t).hasPreamble then (cucExpect t).preamble.length else 0) := by
    rcases hp : t.hasPreamble <;> simp [cucExpect, cucInit, hp, hpre]
  have hbytes : cucBytes t ++ rest2 =
      (if t.hasPreamble then t.preamble else []) ++
        (toBytesBE t.basicLen t.seconds ++
          (toBytesBE t.fracLen (t.fraction.getD 0) ++ rest2)) := by
    rw [cucBytes, if_pos hfrac]
    simp
  rw [cucFromBytes]
  have hexpPre : (cucExpect t).preamble = packPreamble t.basicLen t.fracLen := rfl
  have hexpHasPre : (cucExpect t).hasPreamble = t.hasPreamble := rfl
  have hexpBasic : (cucExpect t).basicLen = t.basicLen := rfl
  have hexpFrac : (cucExpect t).fracLen = t.fracLen := rfl
  have hlen : (cucBytes t ++ rest2).length =
      cucLen t + rest2.length := by
    simp [cucBytes_length]
  have hcuclen : cucLen t = (if t.hasPreamble then t.preamble.length else 0) +
      t.basicLen + t.fracLen := rfl
  rw [if_neg (by
    rw [hlen, hexpHasPre, hexpBasic, hexpFrac, hexpPre, ← hpre, hcuclen]
    rcases hp : t.hasPreamble <;> simp [hp] <;> omega)]
  have hdropPre : (cucBytes t ++ rest2).drop
      (if (cucExpect t).hasPreamble then (cucExpect t).preamble.length else 0) =
      toBytesBE t.basicLen t.seconds ++
        (toBytesBE t.fracLen (t.fraction.getD 0) ++ rest2) := by
    rw [hbytes, hexpHasPre, hexpPre, ← hpre]
    exact List.drop_left' (by rcases hp : t.hasPreamble <;> simp [hp])
  have hsecParse : fromBytesBE (((cucBytes t ++ rest2).drop
      (if (cucExpect t).hasPreamble then (cucExpect t).preamble.length else 0)).take
      (cucExpect t).basicLen) = t.seconds := by
    rw [hdropPre, hexpBasic, List.take_left' (toBytesBE_length _ _)]
    exact fromBytesBE_toBytesBE _ _ hsec
  have hfracParse : fromBytesBE (((cucBytes t ++ rest2).drop
      ((if (cucExpect t).hasPreamble then (cucExpect t).preamble.length else 0) +
        (cucExpect t).basicLen)).take (cucExpect t).fracLen) =
      t.fraction.getD 0 := by
    have hdd : (cucBytes t ++ rest2).drop
        ((if (cucExpect t).hasPreamble then (cucExpect t).preamble.length else 0) +
          (cucExpect t).basicLen) =
        toBytesBE t.fracLen (t.fraction.getD 0) ++ rest2 := by
      rw [← List.drop_drop, hdropPre, hexpBasic,
        List.drop_left' (toBytesBE_length _ _)]
    rw [hdd, hexpFrac, List.take_left' (toBytesBE_length _ _)]
    exact fromBytesBE_toBytesBE _ _ hfrLt
  rw [hsecParse, hfracParse, Except.ok.injEq]
  ext
  · exact hexpBasic
  · exact hexpFrac
  · exact hexpHasPre
  · rw [hexpPre, hpre]
  · rfl
  · rw [hfrS]
    exact Iff.rfl


theorem cucLen_expect (t : CucTimeV)
    (hpre : t.preamble = packPreamble t.basicLen t.fracLen) :
    cucLen (cucExpect t) = cucLen t := by
  unfold cucLen cucExpect cucInit
  rcases hp : t.hasPreamble <;> simp [hp, hpre]

theorem tm_roundtrip (p : PusTmPacket) (hv : ValidTm p)
    (hfrac : (timeOf p).fracLen ≠ 0) :
    (PusTmPacket.serialize p).bind (fun buf =>
      tmDeserializeExp buf p.hasPec true (cucExpect (timeOf p))
        p.secondaryHeader.msgTypeCounter.isSome
        p.secondaryHeader.destination.isSome) = Except.ok p := by
  have hv' := hv
  obtain ⟨hpvn, hpt, hshf, hapid, hsf, hsc, hpv, htr, hst, hsu, hctrV, hdstV, htime,
    hcuc, hpl, hdl, hceil⟩ := hv'
  obtain ⟨hid1, hid2, hid3, hid4, hidlt⟩ := packetIdWord_spec p.header (by omega) hapid
  obtain ⟨hsq1, hsq2, hsqlt⟩ := seqCtrlWord_spec p.header hsf hsc
  have hdl65535 : p.header.dataLength ≤ 65535 := by omega
  rw [tm_serialize_eq p (timeOf p) hshf htime]
  show tmDeserializeExp _ _ _ _ _ _ = _
  set W := tmBytesNoPec p (timeOf p) with hWdef
  set pecB := (if p.hasPec then toBytesBE 2 (calculateb W) else []) with hpecBdef
  set tmpv := (p.secondaryHeader.pusVersion <<< 4) |||
    p.secondaryHeader.spacecraftTimeRefStatus with htmpdef
  set ctrB := (match p.secondaryHeader.msgTypeCounter with
    | some c => toBytesBE 2 c
    | none => []) with hctrBdef
  set dstB := (match p.secondaryHeader.destination with
    | some d => toBytesBE 2 d
    | none => []) with hdstBdef
  set rest := [tmpv, p.secondaryHeader.serviceType, p.secondaryHeader.serviceSubtype] ++
    (ctrB ++ (dstB ++ (cucBytes (timeOf p) ++ (p.payload ++ pecB)))) with hrestdef
  have hbufeq : W ++ pecB = toBytesBE 2 (packetIdWord p.header) ++
      (toBytesBE 2 (seqCtrlWord p.header) ++
        (toBytesBE 2 p.header.dataLength ++ rest)) := by
    rw [hWdef, hrestdef]
    simp [tmBytesNoPec]
  have hctrBlen : ctrB.length = tmCounterSize p := by
    rcases hc : p.secondaryHeader.msgTypeCounter <;>
      simp [hctrBdef, hc, tmCounterSize]
  have hdstBlen : dstB.length = tmDestSize p := by
    rcases hc : p.secondaryHeader.destination <;>
      simp [hdstBdef, hc, tmDestSize]
  have hpecBlen : pecB.length = pecFieldSize p.hasPec := by
    rcases hpc : p.hasPec <;> simp [hpecBdef, hpc, pecFieldSize]
  have hrestlen : rest.length = p.header.dataLength + 1 := by
    simp [hrestdef, hctrBlen, hdstBlen, hpecBlen, cucBytes_length]
    omega
  have hcrc0 : p.hasPec = true → calculateb (toBytesBE 2 (packetIdWord p.header) ++
      (toBytesBE 2 (seqCtrlWord p.header) ++
        (toBytesBE 2 p.header.dataLength ++ rest))) = 0 := by
    intro hp
    rw [← hbufeq, hpecBdef, hp]
    simp only [if_true]
    rw [toBytesBE_two _ (calculateb_lt _)]
    exact calculateb_append_pec _
  have hccsds : ccsdsDeserialize (W ++ pecB) p.hasPec true = .ok p.header := by
    rw [hbufeq]
    exact ccsdsDeserialize_append p.header rest p.hasPec true (by omega) hapid
      hsf hsc hdl65535 hrestlen (fun hp _ => hcrc0 hp)
  rw [tmDeserializeExp, hccsds]
  simp only [hshf, if_true]
  have hexplen : cucLen (cucExpect (timeOf p)) = cucLen (timeOf p) :=
    cucLen_expect _ hcuc.2.2.2.1
  have hpidB := toBytesBE_two _ hidlt
  have hscwB := toBytesBE_two _ hsqlt
  have hdlB := toBytesBE_two _ (show p.header.dataLength < 65536 by omega)
  have hcons : W ++ pecB =
      packetIdWord p.header / 256 :: packetIdWord p.header % 256 ::
      seqCtrlWord p.header / 256 :: seqCtrlWord p.header % 256 ::
      p.header.dataLength / 256 :: p.header.dataLength % 256 ::
      tmpv :: p.secondaryHeader.serviceType :: p.secondaryHeader.serviceSubtype ::
      (ctrB ++ (dstB ++ (cucBytes (timeOf p) ++ (p.payload ++ pecB)))) := by
    rw [hbufeq, hpidB, hscwB, hdlB, hrestdef]
    simp
  have hserlen : (W ++ pecB).length = 6 + p.header.dataLength + 1 := by
    rw [hbufeq]
    simp [hrestlen]
    omega
  have hg6 : (W ++ pecB).getD 6 0 = tmpv := by
    rw [hcons]
    rfl
  have hg7 : (W ++ pecB).getD 7 0 = p.secondaryHeader.serviceType := by
    rw [hcons]
    rfl
  have hg8 : (W ++ pecB).getD 8 0 = p.secondaryHeader.serviceSubtype := by
    rw [hcons]
    rfl
  have htmp_eq : tmpv = p.secondaryHeader.pusVersion * 16 +
      p.secondaryHeader.spacecraftTimeRefStatus := packNibbles_eq _ _ htr
  obtain ⟨htmp1, htmp2, htmplt⟩ := packNibbles_bits _ _ hpv htr
  have hg6v : ((W ++ pecB).getD 6 0 >>> 4) &&& 15 = p.secondaryHeader.pusVersion := by
    rw [hg6, htmp_eq]
    exact htmp1
  have hg6a : (W ++ pecB).getD 6 0 &&& 15 =
      p.secondaryHeader.spacecraftTimeRefStatus := by
    rw [hg6, htmp_eq]
    exact htmp2
  have hdrop9 : (W ++ pecB).drop 9 =
      ctrB ++ (dstB ++ (cucBytes (timeOf p) ++ (p.payload ++ pecB))) := by
    rw [hcons]
    simp
  simp only [tmCounterSize, tmDestSize, pecFieldSize] at hdl hceil
  rw [hg6v, hg6a, hg7, hg8, hexplen]
  rcases hctr : p.secondaryHeader.msgTypeCounter with _ | cv <;>
    rcases hdst : p.secondaryHeader.destination with _ | dv
  · -- no counter, no destination
    have hctrB0 : ctrB = [] := by rw [hctrBdef, hctr]
    have hdstB0 : dstB = [] := by rw [hdstBdef, hdst]
    simp only [hctr, hdst, Option.isSome_none, Bool.false_eq_true, if_false,
      Nat.add_zero] at hdl hceil ⊢
    have hdropT : (W ++ pecB).drop 9 =
        cucBytes (timeOf p) ++ (p.payload ++ pecB) := by
      rw [hdrop9, hctrB0, hdstB0]
      simp
    rw [if_neg (by
      rw [hserlen]
      rcases hpc : p.hasPec <;> simp [hpc] at hdl ⊢ <;> omega)]
    rw [hdropT, cucFromBytes_expect _ hcuc hfrac _]
    have hdropPay : (W ++ pecB).drop (9 + cucLen (timeOf p)) =
        p.payload ++ pecB := by
      rw [← List.drop_drop, hdropT, ← cucBytes_length (timeOf p)]
      exact List.drop_left' rfl
    have harith : (p.header.dataLength : Int) + 1 -
        ((3 + cucLen (timeOf p) + if p.hasPec = true then 2 else 0 : Nat) : Int) =
        (p.payload.length : Int) := by
      rcases hpc : p.hasPec <;> simp [hpc] at hdl ⊢ <;> omega
    rw [harith]
    have happ : (if (p.payload.length : Int) ≠ 0 then
        some (pySlice (W ++ pecB) (9 + cucLen (timeOf p))
          (((9 + cucLen (timeOf p) : Nat) : Int) + (p.payload.length : Int)))
        else none).getD [] = p.payload := by
      by_cases hnil : p.payload = []
      · rw [if_neg (by simp [hnil])]
        simp [hnil]
      · rw [if_pos (by simp [hnil])]
        simp only [Option.getD_some]
        unfold pySlice
        rw [if_neg (by omega)]
        dsimp only
        rw [hdropPay]
        have ht : ((((9 + cucLen (timeOf p) : Nat)) : Int) + (p.payload.length : Int) -
            (((9 + cucLen (timeOf p) : Nat)) : Int)).toNat = p.payload.length := by
          omega
        rw [ht]
        exact List.take_left' rfl
    have hfinal := tmCreate_ok p hv _ happ
    rw [hctr, hdst] at hfinal
    exact hfinal
  · -- destination only
    have hctrB0 : ctrB = [] := by rw [hctrBdef, hctr]
    have hdstB2 : dstB = toBytesBE 2 dv := by rw [hdstBdef, hdst]
    rw [hdst] at hdstV
    simp only [Option.getD_some] at hdstV
    simp only [hctr, hdst, Option.isSome_none, Option.isSome_some,
      Bool.false_eq_true, if_false, if_true, Nat.add_zero] at hdl hceil ⊢
    have hdropD : (W ++ pecB).drop 9 =
        toBytesBE 2 dv ++ (cucBytes (timeOf p) ++ (p.payload ++ pecB)) := by
      rw [hdrop9, hctrB0, hdstB2]
      simp
    have hdvparse : fromBytesBE (((W ++ pecB).drop 9).take 2) = dv := by
      rw [hdropD, List.take_left' (toBytesBE_length 2 _)]
      exact fromBytesBE_toBytesBE 2 dv (by norm_num; omega)
    have hdropT : (W ++ pecB).drop 11 =
        cucBytes (timeOf p) ++ (p.payload ++ pecB) := by
      rw [show (11 : Nat) = 9 + 2 from rfl, ← List.drop_drop, hdropD,
        List.drop_left' (toBytesBE_length 2 _)]
    rw [if_neg (by
      rw [hserlen]
      rcases hpc : p.hasPec <;> simp [hpc] at hdl ⊢ <;> omega)]
    rw [hdvparse, hdropT, cucFromBytes_expect _ hcuc hfrac _]
    have hdropPay : (W ++ pecB).drop (11 + cucLen (timeOf p)) =
        p.payload ++ pecB := by
      rw [← List.drop_drop, hdropT, ← cucBytes_length (timeOf p)]
      exact List.drop_left' rfl
    have harith : (p.header.dataLength : Int) + 1 -
        ((3 + 2 + cucLen (timeOf p) + if p.hasPec = true then 2 else 0 : Nat) : Int) =
        (p.payload.length : Int) := by
      rcases hpc : p.hasPec <;> simp [hpc] at hdl ⊢ <;> omega
    rw [harith]
    have happ : (if (p.payload.length : Int) ≠ 0 then
        some (pySlice (W ++ pecB) (11 + cucLen (timeOf p))
          (((11 + cucLen (timeOf p) : Nat) : Int) + (p.payload.length : Int)))
        else none).getD [] = p.payload := by
      by_cases hnil : p.payload = []
      · rw [if_neg (by simp [hnil])]
        simp [hnil]
      · rw [if_pos (by simp [hnil])]
        simp only [Option.getD_some]
        unfold pySlice
        rw [if_neg (by omega)]
        dsimp only
        rw [hdropPay]
        have ht : ((((11 + cucLen (timeOf p) : Nat)) : Int) + (p.payload.length : Int) -
            (((11 + cucLen (timeOf p) : Nat)) : Int)).toNat = p.payload.length := by
          omega
        rw [ht]
        exact List.take_left' rfl
    have hfinal := tmCreate_ok p hv _ happ
    rw [hctr, hdst] at hfinal
    exact hfinal
  · -- counter only
    have hctrB2 : ctrB = toBytesBE 2 cv := by rw [hctrBdef, hctr]
    have hdstB0 : dstB = [] := by rw [hdstBdef, hdst]
    rw [hctr] at hctrV
    simp only [Option.getD_some] at hctrV
    simp only [hctr, hdst, Option.isSome_none, Option.isSome_some,
      Bool.false_eq_true, if_false, if_true, Nat.add_zero] at hdl hceil ⊢
    have hdropC : (W ++ pecB).drop 9 =
        toBytesBE 2 cv ++ (cucBytes (timeOf p) ++ (p.payload ++ pecB)) := by
      rw [hdrop9, hctrB2, hdstB0]
      simp
    have hcvparse : fromBytesBE (((W ++ pecB).drop 9).take 2) = cv := by
      rw [hdropC, List.take_left' (toBytesBE_length 2 _)]
      exact fromBytesBE_toBytesBE 2 cv (by norm_num; omega)
    have hdropT : (W ++ pecB).drop 11 =
        cucBytes (timeOf p) ++ (p.payload ++ pecB) := by
      rw [show (11 : Nat) = 9 + 2 from rfl, ← List.drop_drop, hdropC,
        List.drop_left' (toBytesBE_length 2 _)]
    rw [if_neg (by
      rw [hserlen]
      rcases hpc : p.hasPec <;> simp [hpc] at hdl ⊢ <;> omega)]
    rw [hcvparse, hdropT, cucFromBytes_expect _ hcuc hfrac _]
    have hdropPay : (W ++ pecB).drop (11 + cucLen (timeOf p)) =
        p.payload ++ pecB := by
      rw [← List.drop_drop, hdropT, ← cucBytes_length (timeOf p)]
      exact List.drop_left' rfl
    have harith : (p.header.dataLength : Int) + 1 -
        ((3 + 2 + cucLen (timeOf p) + if p.hasPec = true then 2 else 0 : Nat) : Int) =
        (p.payload.length : Int) := by
      rcases hpc : p.hasPec <;> simp [hpc] at hdl ⊢ <;> omega
    rw [harith]
    have happ : (if (p.payload.length : Int) ≠ 0 then
        some (pySlice (W ++ pecB) (11 + cucLen (timeOf p))
          (((11 + cucLen (timeOf p) : Nat) : Int) + (p.payload.length : Int)))
        else none).getD [] = p.payload := by
      by_cases hnil : p.payload = []
      · rw [if_neg (by simp [hnil])]
        simp [hnil]
      · rw [if_pos (by simp [hnil])]
        simp only [Option.getD_some]
        unfold pySlice
        rw [if_neg (by omega)]
        dsimp only
        rw [hdropPay]
        have ht : ((((11 + cucLen (timeOf p) : Nat)) : Int) + (p.payload.length : Int) -
            (((11 + cucLen (timeOf p) : Nat)) : Int)).toNat = p.payload.length := by
          omega
        rw [ht]
        exact List.take_left' rfl
    have hfinal := tmCreate_ok p hv _ happ
    rw [hctr, hdst] at hfinal
    exact hfinal
  · -- counter and destination
    have hctrB2 : ctrB = toBytesBE 2 cv := by rw [hctrBdef, hctr]
    have hdstB2 : dstB = toBytesBE 2 dv := by rw [hdstBdef, hdst]
    rw [hctr] at hctrV
    rw [hdst] at hdstV
    simp only [Option.getD_some] at hctrV hdstV
    simp only [hctr, hdst, Option.isSome_some, if_true] at hdl hceil ⊢
    have hdropC : (W ++ pecB).drop 9 =
        toBytesBE 2 cv ++ (toBytesBE 2 dv ++
          (cucBytes (timeOf p) ++ (p.payload ++ pecB))) := by
      rw [hdrop9, hctrB2, hdstB2]
    have hcvparse : fromBytesBE (((W ++ pecB).drop 9).take 2) = cv := by
      rw [hdropC, List.take_left' (toBytesBE_length 2 _)]
      exact fromBytesBE_toBytesBE 2 cv (by norm_num; omega)
    have hdropD : (W ++ pecB).drop 11 =
        toBytesBE 2 dv ++ (cucBytes (timeOf p) ++ (p.payload ++ pecB)) := by
      rw [show (11 : Nat) = 9 + 2 from rfl, ← List.drop_drop, hdropC,
        List.drop_left' (toBytesBE_length 2 _)]
    have hdvparse : fromBytesBE (((W ++ pecB).drop 11).take 2) = dv := by
      rw [hdropD, List.take_left' (toBytesBE_length 2 _)]
      exact fromBytesBE_toBytesBE 2 dv (by norm_num; omega)
    have hdropT : (W ++ pecB).drop 13 =
        cucBytes (timeOf p) ++ (p.payload ++ pecB) := by
      rw [show (13 : Nat) = 11 + 2 from rfl, ← List.drop_drop, hdropD,
        List.drop_left' (toBytesBE_length 2 _)]
    rw [if_neg (by
      rw [hserlen]
      rcases hpc : p.hasPec <;> simp [hpc] at hdl ⊢ <;> omega)]
    rw [hcvparse, hdvparse, hdropT, cucFromBytes_expect _ hcuc hfrac _]
    have hdropPay : (W ++ pecB).drop (13 + cucLen (timeOf p)) =
        p.payload ++ pecB := by
      rw [← List.drop_drop, hdropT, ← cucBytes_length (timeOf p)]
      exact List.drop_left' rfl
    have harith : (p.header.dataLength : Int) + 1 -
        ((3 + 2 + 2 + cucLen (timeOf p) + if p.hasPec = true then 2 else 0 : Nat) : Int) =
        (p.payload.length : Int) := by
      rcases hpc : p.hasPec <;> simp [hpc] at hdl ⊢ <;> omega
    rw [harith]
    have happ : (if (p.payload.length : Int) ≠ 0 then
        some (pySlice (W ++ pecB) (13 + cucLen (timeOf p))
          (((13 + cucLen (timeOf p) : Nat) : Int) + (p.payload.length : Int)))
        else none).getD [] = p.payload := by
      by_cases hnil : p.payload = []
      · rw [if_neg (by simp [hnil])]
        simp [hnil]
      · rw [if_pos (by simp [hnil])]
        simp only [Option.getD_some]
        unfold pySlice
        rw [if_neg (by omega)]
        dsimp only
        rw [hdropPay]
        have ht : ((((13 + cucLen (timeOf p) : Nat)) : Int) + (p.payload.length : Int) -
            (((13 + cucLen (timeOf p) : Nat)) : Int)).toNat = p.payload.length := by
          omega
        rw [ht]
        exact List.take_left' rfl
    have hfinal := tmCreate_ok p hv _ happ
    rw [hctr, hdst] at hfinal
    exact hfinal


/-! ## Claim theorems: packet codec -/

/-- `packet_size` as computed by `CcsdsSpacePacket.deserialize`. -/
def packetSizeOf (buffer : List Nat) : Nat :=
  6 + fromBytesBE ((buffer.drop 4).take 2) + 1

theorem fromBytesBE_lt (l : List Nat) (h : ∀ b ∈ l, b < 256) :
    fromBytesBE l < 256 ^ l.length := by
  induction l with
  | nil => norm_num [fromBytesBE]
  | cons a l ih =>
    have ha : a < 256 := h a (List.mem_cons_self a l)
    have hrec := ih (fun b hb => h b (List.mem_cons_of_mem a hb))
    show List.foldl _ (0 * 256 + a) l < _
    rw [foldl_bytes_shift]
    have : (fromBytesBE l) < 256 ^ l.length := hrec
    simp only [List.length_cons]
    calc (0 * 256 + a) * 256 ^ l.length + l.foldl (fun acc b => acc * 256 + b) 0
        = a * 256 ^ l.length + fromBytesBE l := by rw [fromBytesBE]; ring_nf
      _ < a * 256 ^ l.length + 256 ^ l.length := by omega
      _ = (a + 1) * 256 ^ l.length := by ring
      _ ≤ 256 * 256 ^ l.length := by
          have : a + 1 ≤ 256 := by omega
          exact Nat.mul_le_mul_right _ this
      _ = 256 ^ (l.length + 1) := by ring

theorem tm_serialize_length (p : PusTmPacket) (hv : ValidTm p) :
    ∃ w, PusTmPacket.serialize p = Except.ok w ∧
      w.length = 6 + p.header.dataLength + 1 ∧
      fromBytesBE ((w.drop 4).take 2) = p.header.dataLength := by
  have hv' := hv
  obtain ⟨hpvn, hpt, hshf, hapid, hsf, hsc, hpv, htr, hst, hsu, hctrV, hdstV, htime,
    hcuc, hpl, hdl, hceil⟩ := hv'
  obtain ⟨hsq1, hsq2, hsqlt⟩ := seqCtrlWord_spec p.header hsf hsc
  obtain ⟨hid1, hid2, hid3, hid4, hidlt⟩ := packetIdWord_spec p.header (by omega) hapid
  refine ⟨_, tm_serialize_eq p (timeOf p) hshf htime, ?_, ?_⟩
  · have hctrBlen : (match p.secondaryHeader.msgTypeCounter with
        | some c => toBytesBE 2 c
        | none => ([] : List Nat)).length = tmCounterSize p := by
      rcases hc : p.secondaryHeader.msgTypeCounter <;> simp [hc, tmCounterSize]
    have hdstBlen : (match p.secondaryHeader.destination with
        | some d => toBytesBE 2 d
        | none => ([] : List Nat)).length = tmDestSize p := by
      rcases hc : p.secondaryHeader.destination <;> simp [hc, tmDestSize]
    rcases hpc : p.hasPec <;>
      simp [tmBytesNoPec, hpc, pecFieldSize, cucBytes_length, hctrBlen, hdstBlen]
        at hdl ⊢ <;>
      omega
  · have hdrop4 : (tmBytesNoPec p (timeOf p) ++
        (if p.hasPec then toBytesBE 2 (calculateb (tmBytesNoPec p (timeOf p)))
          else [])).drop 4 =
        toBytesBE 2 p.header.dataLength ++
          (([(p.secondaryHeader.pusVersion <<< 4) |||
              p.secondaryHeader.spacecraftTimeRefStatus,
            p.secondaryHeader.serviceType, p.secondaryHeader.serviceSubtype] ++
          ((match p.secondaryHeader.msgTypeCounter with
            | some c => toBytesBE 2 c
            | none => []) ++
          ((match p.secondaryHeader.destination with
            | some d => toBytesBE 2 d
            | none => []) ++
          (cucBytes (timeOf p) ++ p.payload)))) ++
          (if p.hasPec then toBytesBE 2 (calculateb (tmBytesNoPec p (timeOf p)))
            else [])) := by
      rw [tmBytesNoPec]
      rw [show (4 : Nat) = 2 + 2 from rfl, ← List.drop_drop]
      rw [List.append_assoc, List.drop_left' (toBytesBE_length 2 _)]
      rw [List.append_assoc, List.drop_left' (toBytesBE_length 2 _)]
      simp
    rw [hdrop4, List.take_left' (toBytesBE_length 2 _)]
    exact fromBytesBE_toBytesBE 2 _ (by norm_num; omega)

/-- The `data_length` field written by a valid TC serialization. -/
theorem tc_dataLength_field (p : PusTcPacket) (hv : ValidTc p) :
    fromBytesBE ((p.serialize.drop 4).take 2) = p.header.dataLength := by
  have hv' := hv
  obtain ⟨hpvn, hpt, hshf, hapid, hsf, hsc, hpv, hak, hst, hsu, hsrc, hpl, hdl, hceil⟩ := hv'
  have hshape := tc_serialize_shape p hshf
  rw [hshape]
  rw [show (4 : Nat) = 2 + 2 from rfl, ← List.drop_drop]
  rw [List.drop_left' (toBytesBE_length 2 _), List.drop_left' (toBytesBE_length 2 _)]
  rw [List.take_left' (toBytesBE_length 2 _)]
  exact fromBytesBE_toBytesBE 2 _ (by norm_num; omega)

/-- C1 (amended): for valid TC packets, deserializing the serialization with
matching expectations returns the packet exactly, the byte length is
`6 + data_length + 1`, and the on-wire data-length field encodes secondary
header + payload + PEC bytes minus one.  For valid TM packets the same holds
when the time format has at least one fractional octet; a fractional-octet
count of zero is the corrected exception (see the counterexample). -/
theorem claim_C1_codec_roundtrip :
    (∀ p : PusTcPacket, ValidTc p →
      PusTcPacket.deserialize p.serialize p.hasPec true
        p.secondaryHeader.source.isSome = Except.ok p ∧
      p.serialize.length = 6 + p.header.dataLength + 1 ∧
      fromBytesBE ((p.serialize.drop 4).take 2) + 1 =
        3 + tcSourceFieldSize p + p.payload.length + pecFieldSize p.hasPec) ∧
    (∀ p : PusTmPacket, ValidTm p → (timeOf p).fracLen ≠ 0 →
      (PusTmPacket.serialize p).bind (fun buf =>
        tmDeserializeExp buf p.hasPec true (cucExpect (timeOf p))
          p.secondaryHeader.msgTypeCounter.isSome
          p.secondaryHeader.destination.isSome) = Except.ok p ∧
      (∃ w, PusTmPacket.serialize p = Except.ok w ∧
        w.length = 6 + p.header.dataLength + 1 ∧
        fromBytesBE ((w.drop 4).take 2) + 1 =
          3 + tmCounterSize p + tmDestSize p + cucLen (timeOf p) +
            p.payload.length + pecFieldSize p.hasPec)) := by
  constructor
  · intro p hv
    refine ⟨tc_roundtrip p hv, tc_serialize_length p hv, ?_⟩
    rw [tc_dataLength_field p hv]
    exact hv.2.2.2.2.2.2.2.2.2.2.2.2.1
  · intro p hv hfrac
    refine ⟨tm_roundtrip p hv hfrac, ?_⟩
    obtain ⟨w, hw, hlen, hfield⟩ := tm_serialize_length p hv
    refine ⟨w, hw, hlen, ?_⟩
    rw [hfield]
    exact hv.2.2.2.2.2.2.2.2.2.2.2.2.2.2.2.1

/-- A valid TC packet exercising source-id and PEC. -/
def tcSample : PusTcPacket :=
  ⟨⟨0, PacketType.TC, true, 16, 3, 5, 8⟩, ⟨2, 9, 8, 1, some 4660⟩, [170, 187], true⟩

/-- A valid TM packet exercising counter, destination, time and PEC. -/
def tmSample : PusTmPacket :=
  ⟨⟨0, PacketType.TM, true, 32, 3, 7, 18⟩,
   ⟨2, 1, 3, 25, some 3, some 9, some (cucInit 4 2 100 7 true)⟩, [1, 2, 3], true⟩

theorem claim_C1_codec_roundtrip_witness :
    ValidTc tcSample ∧ ValidTm tmSample ∧ (timeOf tmSample).fracLen ≠ 0 ∧
    PusTcPacket.deserialize tcSample.serialize tcSample.hasPec true
      tcSample.secondaryHeader.source.isSome = Except.ok tcSample ∧
    (PusTmPacket.serialize tmSample).bind (fun buf =>
      tmDeserializeExp buf tmSample.hasPec true (cucExpect (timeOf tmSample))
        tmSample.secondaryHeader.msgTypeCounter.isSome
        tmSample.secondaryHeader.destination.isSome) = Except.ok tmSample :=
  ⟨by decide, by decide, by decide,
    (claim_C1_codec_roundtrip.1 tcSample (by decide)).1,
    (claim_C1_codec_roundtrip.2 tmSample (by decide) (by decide)).1⟩

/-- A valid TM packet whose time has no fractional octets and no preamble:
the class of packets on which the round trip is not exact. -/
def tmFracZero : PusTmPacket :=
  ⟨⟨0, PacketType.TM, true, 5, 3, 0, 6⟩,
   ⟨2, 0, 1, 1, none, none, some (cucInit 1 0 5 0 false)⟩, [7], true⟩

/-- C1 counterexample: `tmFracZero` is a valid TM packet, but deserializing
its serialization with the matching expectation (required, as the time
carries no preamble) yields a packet whose time fraction is `some 0` where
the original stores `none` — not equal field by field. -/
theorem claim_C1_counterexample :
    ValidTm tmFracZero ∧
    (PusTmPacket.serialize tmFracZero).bind (fun buf =>
      tmDeserializeExp buf true true (cucExpect (timeOf tmFracZero)) false false) =
      Except.ok { tmFracZero with secondaryHeader := { tmFracZero.secondaryHeader with
        time := some { timeOf tmFracZero with fraction := some 0 } } } ∧
    (PusTmPacket.serialize tmFracZero).bind (fun buf =>
      tmDeserializeExp buf true true (cucExpect (timeOf tmFracZero)) false false) ≠
      Except.ok tmFracZero := by
  refine ⟨by decide, by decide, ?_⟩
  intro h
  exact absurd h (by decide)

/-- C2: `CcsdsSpacePacket.deserialize` reads the 6-byte primary header,
computes `packet_size = 6 + data_length + 1`, raises IncompletePacket
exactly when the buffer is shorter than `packet_size`, raises InvalidPacket
when `packet_size` exceeds 65542 bytes (unreachable for 16-bit data-length
fields, hence never observed), validates the CRC over the whole
`packet_size` span exactly when a PEC is expected and validation requested,
and produces no packet in any error case. -/
theorem claim_C2_deserialize_errors (buffer : List Nat) (hasPec validatePec : Bool)
    (hbytes : ∀ b ∈ buffer, b < 256) (hlen6 : 6 ≤ buffer.length) :
    (buffer.length < packetSizeOf buffer ↔
      ccsdsDeserialize buffer hasPec validatePec = .error .incompletePacket) ∧
    (65542 < packetSizeOf buffer →
      ccsdsDeserialize buffer hasPec validatePec = .error .invalidPacket) ∧
    (packetSizeOf buffer ≤ buffer.length → hasPec = true → validatePec = true →
      (ccsdsDeserialize buffer hasPec validatePec = .error .crcMismatch ↔
        calculateb (buffer.take (packetSizeOf buffer)) ≠ 0)) ∧
    (∀ e h, ccsdsDeserialize buffer hasPec validatePec = .error e →
      ccsdsDeserialize buffer hasPec validatePec ≠ .ok h) := by
  have hdl_lt : fromBytesBE ((buffer.drop 4).take 2) < 65536 := by
    have h2 : ((buffer.drop 4).take 2).length = 2 := by
      rw [List.length_take, List.length_drop]
      omega
    have := fromBytesBE_lt ((buffer.drop 4).take 2)
      (fun b hb => hbytes b (List.mem_of_mem_drop (List.mem_of_mem_take hb)))
    rw [h2] at this
    norm_num at this
    exact this
  have hps : packetSizeOf buffer = 6 + fromBytesBE ((buffer.drop 4).take 2) + 1 := rfl
  by_cases h1 : buffer.length < packetSizeOf buffer
  · have hres : ccsdsDeserialize buffer hasPec validatePec =
        .error .incompletePacket := by
      rw [ccsdsDeserialize, if_neg (by omega)]
      rw [if_pos (by rw [← hps]; exact h1)]
    refine ⟨⟨fun _ => hres, fun _ => h1⟩, fun hbig => absurd hbig (by omega),
      fun hle => absurd h1 (by omega), ?_⟩
    intro e h heq
    rw [hres]
    intro hco
    exact Except.noConfusion hco
  · have hstep : ccsdsDeserialize buffer hasPec validatePec =
        (if hasPec && validatePec &&
            !(calculateb (buffer.take (packetSizeOf buffer)) == 0) then
          .error .crcMismatch
        else .ok {
          packetVersionNumber := (fromBytesBE (buffer.take 2) >>> 13) &&& 0b111
          packetType := if (fromBytesBE (buffer.take 2) >>> 12) &&& 0b1 = 1 then
            PacketType.TC else PacketType.TM
          secondaryHeaderFlag := (fromBytesBE (buffer.take 2) >>> 11) &&& 0b1 = 1
          apid := fromBytesBE (buffer.take 2) &&& 0x7ff
          seqFlags := (fromBytesBE ((buffer.drop 2).take 2) >>> 14) &&& 0b11
          seqCountOrName := fromBytesBE ((buffer.drop 2).take 2) &&& 0x3fff
          dataLength := fromBytesBE ((buffer.drop 4).take 2) }) := by
      rw [ccsdsDeserialize, if_neg (by omega)]
      rw [if_neg (by rw [← hps]; omega)]
      rw [if_neg (by rw [← hps]; omega)]
      rw [hps]
    refine ⟨⟨fun hlt => absurd hlt h1, fun herr => ?_⟩,
      fun hbig => absurd hbig (by omega), fun _ hp hvp => ?_, ?_⟩
    · rw [hstep] at herr
      by_cases hc : (hasPec && validatePec &&
          !(calculateb (buffer.take (packetSizeOf buffer)) == 0)) = true
      · rw [if_pos hc] at herr
        exact absurd (Except.error.inj herr) (by intro h; exact PacketError.noConfusion h)
      · rw [if_neg (by simpa using hc)] at herr
        exact Except.noConfusion herr
    · rw [hstep, hp, hvp]
      constructor
      · intro herr
        by_cases hc : calculateb (buffer.take (packetSizeOf buffer)) = 0
        · rw [hc] at herr
          simp at herr
        · exact hc
      · intro hc
        rw [if_pos (by simp [hc])]
    · intro e h heq hok
      rw [heq] at hok
      exact Except.noConfusion hok

theorem claim_C2_deserialize_errors_witness :
    ccsdsDeserialize [0, 0, 0, 0, 0, 0] true true =
      Except.error PacketError.incompletePacket :=
  ((claim_C2_deserialize_errors [0, 0, 0, 0, 0, 0] true true (by decide)
    (by decide)).1).mp (by decide)

/-- C3: the CRC engine matches the ECSS-E-70-41C Annex B test vectors, and
corrupting any single byte of a zero-checksumming (i.e. correctly
checksummed) byte string makes the receiver checksum nonzero. -/
theorem claim_C3_crc :
    calculateb [0x00, 0x00] = 0x1d0f ∧
    calculateb [0x14, 0x56, 0xF8, 0x9A, 0x00, 0x01] = 0x7fd5 ∧
    (∀ (pre suf : List Nat) (c c' : Nat), c < 256 → c' < 256 → c ≠ c' →
      calculateb (pre ++ c :: suf) = 0 → calculateb (pre ++ c' :: suf) ≠ 0) := by
  refine ⟨by decide, by decide, ?_⟩
  intro pre suf c c' hc hc' hne h0
  intro hcontra
  exact calculateb_single_byte_ne pre suf c c' hc hc' hne (by rw [h0, hcontra])

theorem claim_C3_crc_witness :
    calculateb [0x00, 0x00, 0x1d, 0x0f] = 0 ∧
    calculateb [0x00, 0x01, 0x1d, 0x0f] ≠ 0 :=
  ⟨by decide, claim_C3_crc.2.2 [0x00] [0x1d, 0x0f] 0 1 (by decide) (by decide)
    (by decide) (by decide)⟩


/-! ## Parameters (`puslib/parameter.py`, old tree)

`_Parameter.value` setter and `_UnsignedIntegerParameter._validate`.
Python values are modeled by `PyValue`: `None`, an `int`, or some other
object (compared by identity, represented as an object id). -/

inductive PyValue
  | none
  | int (i : Int)
  | other (objId : Nat)
deriving DecidableEq

inductive ParamError
  | typeError
  | valueError
deriving DecidableEq

/-- `_UnsignedIntegerParameter._validate`: `isinstance(value, int)` check
(TypeError) followed by the range check `0 <= value <= 2**(value_size*8)-1`
(ValueError). -/
def uintValidate (valueSize : Nat) : PyValue → Except ParamError Unit
  | .int v =>
    if ¬ (0 ≤ v ∧ v ≤ 2 ^ (valueSize * 8) - 1) then .error .valueError else .ok ()
  | _ => .error .typeError

/-- A parameter's mutable state: its current value and the list of
subscribers (`self._events`, identified by subscription order ids). -/
structure ParamState where
  value : PyValue
  events : List Nat
deriving DecidableEq

/-- `_Parameter.value` setter: return unchanged if the new value equals the
current one; otherwise validate, assign, and call every subscriber in
subscription order with `(old_value, new_value)`.  The returned list is the
sequence of `event(old_value=..., new_value=...)` calls; a raised
`TypeError`/`ValueError` propagates before any assignment. -/
def setValue (valueSize : Nat) (p : ParamState) (newValue : PyValue) :
    Except ParamError (ParamState × List (Nat × PyValue × PyValue)) :=
  if p.value = newValue then .ok (p, [])
  else
    match uintValidate valueSize newValue with
    | .error e => .error e
    | .ok _ => .ok ({ p with value := newValue },
        p.events.map fun s => (s, p.value, newValue))

/-! ## Service dispatch (`puslib/services/service.py`, old tree)

`PusService.process`: pop each queued TC, call the registered subservice
handler, interpret its return value (bool / error-code enum), then emit the
accept and complete verification calls.  `HandlerRet.raisedError` models a
handler that raises an exception not caught inside the handler
(e.g. `NotImplementedError`); the `while` loop has no `try`, so such an
exception propagates out of `process()`. -/

inductive HandlerRet
  | ok (success : Bool)
  | errEnum (code : Nat)
  | raisedError
deriving DecidableEq

structure QueuedTc where
  subservice : Nat
  appData : List Nat
deriving DecidableEq

/-- What `process()` did: the commands whose handler was invoked, the
`(packet, success, failure_code)` verification pairs passed to
`accept`/`complete`, and whether an uncaught exception aborted the loop. -/
structure ProcessTrace where
  handled : List QueuedTc
  verified : List (QueuedTc × Bool × Option Nat)
  aborted : Bool
deriving DecidableEq

def processQueue {σ : Type} (handler : Nat → List Nat → σ → HandlerRet × σ) :
    List QueuedTc → σ → ProcessTrace × σ
  | [], s => (⟨[], [], false⟩, s)
  | tc :: rest, s =>
    match handler tc.subservice tc.appData s with
    | (.ok b, s1) =>
      (⟨tc :: (processQueue handler rest s1).1.handled,
        (tc, b, Option.none) :: (processQueue handler rest s1).1.verified,
        (processQueue handler rest s1).1.aborted⟩,
       (processQueue handler rest s1).2)
    | (.errEnum c, s1) =>
      (⟨tc :: (processQueue handler rest s1).1.handled,
        (tc, false, Option.some c) :: (processQueue handler rest s1).1.verified,
        (processQueue handler rest s1).1.aborted⟩,
       (processQueue handler rest s1).2)
    | (.raisedError, s1) => (⟨[tc], [], true⟩, s1)

/-! ## Housekeeping (`src/puslib/services/pus_003_housekeeping.py`, new tree)

Report tables are Python dicts with `int` keys; they are modeled as
association lists in insertion order (`tblSet` replaces in place or appends,
`tblDel` removes, `tblGet?`/`tblMem` look up the first matching key).
Per `pus_policy.py`, structure ids, collection intervals, counts and
parameter ids are all big-endian `UInt16`; event counts are `UInt8`. -/

structure HkReport where
  sid : Nat
  collectionInterval : Nat
  enabled : Bool
  paramIds : List Nat
deriving DecidableEq

abbrev HkTable := List (Nat × HkReport)

def tblMem : HkTable → Nat → Bool
  | [], _ => false
  | e :: t, k => e.1 = k || tblMem t k

def tblGet? : HkTable → Nat → Option HkReport
  | [], _ => Option.none
  | e :: t, k => if e.1 = k then Option.some e.2 else tblGet? t k

def tblSet : HkTable → Nat → HkReport → HkTable
  | [], k, r => [(k, r)]
  | e :: t, k, r => if e.1 = k then (k, r) :: t else e :: tblSet t k r

def tblDel : HkTable → Nat → HkTable
  | [], _ => []
  | e :: t, k => if e.1 = k then tblDel t k else e :: tblDel t k

/-- `UIntParameter.from_bytes(buffer)` for a 2-byte field:
`int.from_bytes(buffer[:2], byteorder="big")`. -/
def u16 (l : List Nat) : Nat := fromBytesBE (l.take 2)

/-- Same for a 1-byte field (`UInt8Parameter`). -/
def u8 (l : List Nat) : Nat := fromBytesBE (l.take 1)

/-- `struct.unpack(">nH", buf)`: requires `buf` to be exactly `2*n` bytes
(else `struct.error`, modeled as `none`) and yields the `n` big-endian
16-bit values. -/
def unpackU16s (n : Nat) (l : List Nat) : Option (List Nat) :=
  if l.length = 2 * n then
    Option.some ((List.range n).map fun i => fromBytesBE ((l.drop (2 * i)).take 2))
  else Option.none

/-- Python dict merge `{**a, **b}` on key lists: keys of `a` in order, then
keys of `b` not already present, in order. -/
def dictMerge (a b : List Nat) : List Nat :=
  a ++ b.filter fun i => ¬ a.contains i

/-- `Housekeeping._create_or_append_report` (lines 153-205).  Parameters are
modeled by their ids (`params` = keys of `self._params`, report parameter
dicts by their key lists).  The guard `if not self._params` would evaluate
`CommonErrorCode.PUS3_NO_PARAMS_AVAILABLE`, a member `error_codes.py` does
not define, raising `AttributeError`: modeled as `.raisedError`.  The
`collection_interval` field is read only in the create (non-append) path;
`nfa != 0` raises `NotImplementedError` (`.raisedError`), uncaught by the
`except struct.error` clause.  A failed `struct.unpack` of the parameter-id
array returns `CommonErrorCode.INCOMPLETE = 1`. -/
def hkCreateOrAppendReport (params : List Nat) (reports : HkTable)
    (appData : List Nat) (append : Bool) : HandlerRet × HkTable :=
  if params.length = 0 then (.raisedError, reports)
  else
    let sid := u16 appData
    if append ∧ ¬ tblMem reports sid then (.errEnum 31, reports)
    else if append ∧ ((tblGet? reports sid).map HkReport.enabled).getD false then
      (.errEnum 32, reports)
    else if ¬ append ∧ tblMem reports sid then (.errEnum 30, reports)
    else
      let collectionInterval := u16 (appData.drop 2)
      let o1 : Nat := if append then 2 else 4
      let n1 := u16 (appData.drop o1)
      match unpackU16s n1 ((appData.drop (o1 + 2)).take (2 * n1)) with
      | Option.none => (.errEnum 1, reports)
      | Option.some paramIds =>
        if paramIds.dedup.length ≠ paramIds.length then (.errEnum 33, reports)
        else
          let keptIds := paramIds.filter fun i => params.contains i
          let nfa := u16 (appData.drop (o1 + 2 + 2 * n1))
          if nfa ≠ 0 then (.raisedError, reports)
          else if append then
            match tblGet? reports sid with
            | Option.some r =>
              (.ok true, tblSet reports sid
                { r with paramIds := dictMerge r.paramIds keptIds })
            | Option.none => (.ok true, reports)
          else
            (.ok true, tblSet reports sid ⟨sid, collectionInterval, false, keptIds⟩)

/-- The loop body of `_for_each_report_id`:
`for report_id in report_ids: if report_id in reports: operation(...)`,
where `reports` is re-checked against the mutated table each iteration. -/
def hkBatchFold (op : Nat → HkTable → HkTable) (t : HkTable) (ids : List Nat) : HkTable :=
  ids.foldl (fun t i => if tblMem t i then op i t else t) t

/-- `Housekeeping._for_each_report_id` (lines 207-236): parse a 16-bit
count, then exactly `N` 16-bit report ids (`struct.unpack` on the whole
remainder: a length mismatch is `struct.error` → `INCOMPLETE`), and apply
`operation` per existing id. -/
def hkForEachReportId (reports : HkTable) (appData : List Nat)
    (op : Nat → HkTable → HkTable) : HandlerRet × HkTable :=
  let numReports := u16 appData
  match unpackU16s numReports (appData.drop 2) with
  | Option.none => (.errEnum 1, reports)
  | Option.some reportIds => (.ok true, hkBatchFold op reports reportIds)

/-- `_delete_reports`'s operation: delete only if the report is disabled. -/
def hkDeleteOp (i : Nat) (t : HkTable) : HkTable :=
  match tblGet? t i with
  | Option.some r => if ¬ r.enabled then tblDel t i else t
  | Option.none => t

/-- `_toggle_reports`'s operation: `report.enable()` / `report.disable()`. -/
def hkToggleOp (enable : Bool) (i : Nat) (t : HkTable) : HkTable :=
  match tblGet? t i with
  | Option.some r => tblSet t i { r with enabled := enable }
  | Option.none => t

def hkDeleteReports (reports : HkTable) (appData : List Nat) : HandlerRet × HkTable :=
  hkForEachReportId reports appData hkDeleteOp

def hkToggleReports (reports : HkTable) (appData : List Nat) (enable : Bool) :
    HandlerRet × HkTable :=
  hkForEachReportId reports appData (hkToggleOp enable)

/-- A Python dict-membership candidate in `_modify_report_intervals`:
either one of the table's `int` keys, or the freshly constructed
`structure_id_type()` parameter object `sid`. -/
inductive PyKey
  | intKey (n : Nat)
  | paramObj (value : Nat)
deriving DecidableEq

/-- Python `==` as used by `sid in reports`: `int == int` compares values;
`Parameter` defines no `__eq__`, so comparing a parameter object with an
`int` key falls back to identity and is always false. -/
def pyKeyEq : PyKey → PyKey → Bool
  | .intKey a, .intKey b => a == b
  | _, _ => false

/-- The `for _ in range(n)` loop of `_modify_report_intervals` (lines
277-285).  Note the two faithful quirks: `offset` advances past the sid but
not past the interval, and the membership test is `sid in reports` with
`sid` the parameter *object*, not `sid.value`. -/
def hkModifyLoop (appData : List Nat) : Nat → Nat → HkTable → HkTable
  | 0, _, t => t
  | k + 1, offset, t =>
    let sidVal := u16 (appData.drop offset)
    let intervalVal := u16 (appData.drop (offset + 2))
    let t2 := if t.any fun e => pyKeyEq (PyKey.paramObj sidVal) (PyKey.intKey e.1) then
        t.map fun e =>
          if pyKeyEq (PyKey.paramObj sidVal) (PyKey.intKey e.1) then
            (e.1, { e.2 with collectionInterval := intervalVal })
          else e
      else t
    hkModifyLoop appData k (offset + 2) t2

/-- `Housekeeping._modify_report_intervals` (lines 271-290): parse a 16-bit
count and loop; `from_bytes` never raises, so the handler always returns
`True`. -/
def hkModifyReportIntervals (reports : HkTable) (appData : List Nat) :
    HandlerRet × HkTable :=
  (.ok true, hkModifyLoop appData (u16 appData) 2 reports)

/-- The housekeeping service with the TC[3,1] create-report handler
registered (`_register_sub_service(1, partial(_create_or_append_report,
append=False, diagnostic=False))`), dispatching on the housekeeping report
table. -/
def hkCreateHandler (params : List Nat) :
    Nat → List Nat → HkTable → HandlerRet × HkTable :=
  fun _ appData t => hkCreateOrAppendReport params t appData false

/-! ## Event reporting (`pus_005_event_reporting.py`, new tree) -/

/-- `EventReporting._toggle` (lines 143-160).  Event reports are modeled by
their `_enabled` flag keyed by event id (`enable()`/`disable()` touch only
that flag).  The count is one byte, ids are 16 bits, `struct.unpack` on the
whole remainder; note the `if not all(eid in self._reports ...)` gate that
rejects the entire request when any id is unknown. -/
def evToggle (reports : List (Nat × Bool)) (appData : List Nat) (enable : Bool) :
    HandlerRet × List (Nat × Bool) :=
  let numIds := u8 appData
  match unpackU16s numIds (appData.drop 1) with
  | Option.none => (.ok false, reports)
  | Option.some ids =>
    if ¬ (ids.all fun eid => reports.any fun e => e.1 = eid) then (.ok false, reports)
    else
      (.ok true, ids.foldl (fun t eid =>
        if t.any fun e => e.1 = eid then
          t.map fun e => if e.1 = eid then (e.1, enable) else e
        else t) reports)

/-- Python truthiness of an optional trigger target (`not to_value` is true
both for `None` and for the integer `0`). -/
def truthyOpt : Option Int → Bool
  | Option.none => false
  | Option.some x => !(x == 0)

/-- `EventReporting._trigger` (lines 131-141): returns whether
`self.dispatch(report)` is reached.  The variant selection uses Python
truthiness (`not to_value`, `not from_value`), not `is None`. -/
def triggerFires (enabled : Bool) (toValue fromValue : Option Int)
    (oldValue newValue : Int) : Bool :=
  if ¬ enabled then false
  else if ¬ truthyOpt toValue ∧ ¬ truthyOpt fromValue then true
  else if ¬ truthyOpt fromValue then toValue == Option.some newValue
  else fromValue == Option.some oldValue && toValue == Option.some newValue

/-- The trigger semantics as the specification words it: the variant is
selected by whether `to_value` / `from_value` are *defined* (not `None`),
independent of their integer value. -/
def specTriggerFires (enabled : Bool) (toValue fromValue : Option Int)
    (oldValue newValue : Int) : Bool :=
  if ¬ enabled then false
  else
    match toValue, fromValue with
    | Option.none, _ => true
    | Option.some t, Option.none => t == newValue
    | Option.some t, Option.some f => f == oldValue && t == newValue

/-! ## Request verification (`pus_001_request_verification.py`, new tree) -/

/-- `PusTcPacket.ack`: `ack_flag in self.secondary_header.ack_flags`
(`IntFlag` membership, `flags & flag == flag`). -/
def pusAck (p : PusTcPacket) (flag : Nat) : Bool :=
  p.secondaryHeader.ackFlags &&& flag = flag

structure VerifReport where
  serviceType : Nat
  subservice : Nat
  payload : List Nat
deriving DecidableEq

/-- `RequestVerification._generate_report`: the payload starts with the
4-byte request id; on failure the failure code follows (default
`CommonErrorCode.ILLEGAL_APP_DATA = 5` when `failure_code` is `None`, one
byte per the policy's `failure_code_type = UInt8Parameter`; all codes are
single-byte enum values) plus the failure data.  The report is written on
service type 1 with the chosen subservice. -/
def rvGenerateReport (p : PusTcPacket) (subservice : Nat) (success : Bool)
    (failureCode : Option Nat) (failureData : List Nat) : VerifReport :=
  ⟨1, subservice,
    requestIdBytes p.header ++
      if success then [] else toBytesBE 1 (failureCode.getD 5) ++ failureData⟩

/-- `RequestVerification.accept` (subservice 1 on success, 2 on failure),
guarded by `packet.ack(AckFlag.ACCEPTANCE)` (bit 0b0001). -/
def rvAccept (p : PusTcPacket) (success : Bool) (failureCode : Option Nat)
    (failureData : List Nat) : List VerifReport :=
  if ¬ pusAck p 1 then [] else
    [rvGenerateReport p (if success then 1 else 2) success failureCode failureData]

/-- `RequestVerification.start` (3/4), guarded by `START_OF_EXECUTION`
(0b0010). -/
def rvStart (p : PusTcPacket) (success : Bool) (failureCode : Option Nat)
    (failureData : List Nat) : List VerifReport :=
  if ¬ pusAck p 2 then [] else
    [rvGenerateReport p (if success then 3 else 4) success failureCode failureData]

/-- `RequestVerification.progress` (5/6), guarded by `PROGRESS` (0b0100). -/
def rvProgress (p : PusTcPacket) (success : Bool) (failureCode : Option Nat)
    (failureData : List Nat) : List VerifReport :=
  if ¬ pusAck p 4 then [] else
    [rvGenerateReport p (if success then 5 else 6) success failureCode failureData]

/-- `RequestVerification.complete` (7/8), guarded by `COMPLETION`
(0b1000). -/
def rvComplete (p : PusTcPacket) (success : Bool) (failureCode : Option Nat)
    (failureData : List Nat) : List VerifReport :=
  if ¬ pusAck p 8 then [] else
    [rvGenerateReport p (if success then 7 else 8) success failureCode failureData]

/-- The reports written when a command is fed through all four
operations. -/
def rvAllFour (p : PusTcPacket) (success : Bool) (failureCode : Option Nat)
    (failureData : List Nat) : List VerifReport :=
  rvAccept p success failureCode failureData ++
    rvStart p success failureCode failureData ++
    rvProgress p success failureCode failureData ++
    rvComplete p success failureCode failureData


/-! ## Table lemmas -/

theorem tblMem_of_get (t : HkTable) (k : Nat) (r : HkReport)
    (h : tblGet? t k = Option.some r) : tblMem t k = true := by
  induction t with
  | nil => exact Option.noConfusion h
  | cons e t ih =>
    simp only [tblGet?] at h
    simp only [tblMem]
    by_cases he : e.1 = k
    · simp [he]
    · rw [if_neg he] at h
      simp [he, ih h]

theorem tblGet?_del_ne (t : HkTable) (i k : Nat) (h : k ≠ i) :
    tblGet? (tblDel t i) k = tblGet? t k := by
  induction t with
  | nil => rfl
  | cons e t ih =>
    simp only [tblDel, tblGet?]
    by_cases he : e.1 = i
    · rw [if_pos he, ih, if_neg (by rw [he]; exact fun hh => h hh.symm)]
    · rw [if_neg he]
      simp only [tblGet?]
      by_cases hek : e.1 = k
      · rw [if_pos hek, if_pos hek]
      · rw [if_neg hek, if_neg hek, ih]

theorem hkDeleteOp_preserves_enabled (t : HkTable) (i k : Nat) (r : HkReport)
    (hget : tblGet? t k = Option.some r) (hen : r.enabled = true) :
    tblGet? (hkDeleteOp i t) k = Option.some r := by
  rcases hg : tblGet? t i with _ | ri
  · rw [hkDeleteOp, hg]
    exact hget
  · rw [hkDeleteOp, hg]
    dsimp only
    by_cases hik : i = k
    · subst hik
      rw [hget] at hg
      have hrr : r = ri := by injection hg
      rw [if_neg (by rw [← hrr, hen]; exact fun hc => hc rfl)]
      exact hget
    · by_cases hb : ri.enabled = true
      · rw [if_neg (by rw [hb]; exact fun hc => hc rfl)]
        exact hget
      · rw [if_pos hb, tblGet?_del_ne t i k (fun he => hik he.symm)]
        exact hget

theorem hkBatchFold_cons (op : Nat → HkTable → HkTable) (t : HkTable) (x : Nat)
    (ids : List Nat) :
    hkBatchFold op t (x :: ids) =
      hkBatchFold op (if tblMem t x then op x t else t) ids := rfl

theorem hkBatchFold_preserves_enabled (ids : List Nat) (t : HkTable) (k : Nat)
    (r : HkReport) (hget : tblGet? t k = Option.some r) (hen : r.enabled = true) :
    tblGet? (hkBatchFold hkDeleteOp t ids) k = Option.some r := by
  induction ids generalizing t with
  | nil => exact hget
  | cons i ids ih =>
    rw [hkBatchFold_cons]
    by_cases hm : tblMem t i = true
    · rw [if_pos hm]
      exact ih _ (hkDeleteOp_preserves_enabled t i k r hget hen)
    · rw [if_neg hm]
      exact ih _ hget

theorem tblMem_tblSet_ne (t : HkTable) (i j : Nat) (r : HkReport)
    (hj : j ≠ i) (h : tblMem t i = false) : tblMem (tblSet t j r) i = false := by
  induction t with
  | nil => simp [tblSet, tblMem, hj]
  | cons e t ih =>
    simp only [tblMem, Bool.or_eq_false_iff, decide_eq_false_iff_not] at h
    simp only [tblSet]
    by_cases he : e.1 = j
    · rw [if_pos he]
      simp only [tblMem, Bool.or_eq_false_iff, decide_eq_false_iff_not]
      exact ⟨hj, h.2⟩
    · rw [if_neg he]
      simp only [tblMem, Bool.or_eq_false_iff, decide_eq_false_iff_not]
      exact ⟨h.1, ih h.2⟩

theorem tblMem_tblDel_false (t : HkTable) (i j : Nat) (h : tblMem t i = false) :
    tblMem (tblDel t j) i = false := by
  induction t with
  | nil => rfl
  | cons e t ih =>
    simp only [tblMem, Bool.or_eq_false_iff, decide_eq_false_iff_not] at h
    simp only [tblDel]
    by_cases he : e.1 = j
    · rw [if_pos he]
      exact ih h.2
    · rw [if_neg he]
      simp only [tblMem, Bool.or_eq_false_iff, decide_eq_false_iff_not]
      exact ⟨h.1, ih h.2⟩

theorem tblMem_hkToggleOp_false (en : Bool) (j i : Nat) (t : HkTable)
    (hji : j ≠ i) (h : tblMem t i = false) : tblMem (hkToggleOp en j t) i = false := by
  rcases hg : tblGet? t j with _ | r
  · rw [hkToggleOp, hg]
    exact h
  · rw [hkToggleOp, hg]
    exact tblMem_tblSet_ne t i j _ hji h

theorem tblMem_hkDeleteOp_false (j i : Nat) (t : HkTable) (h : tblMem t i = false) :
    tblMem (hkDeleteOp j t) i = false := by
  rcases hg : tblGet? t j with _ | r
  · rw [hkDeleteOp, hg]
    exact h
  · rw [hkDeleteOp, hg]
    dsimp only
    by_cases hb : r.enabled = true
    · rw [if_neg (by rw [hb]; exact fun hc => hc rfl)]
      exact h
    · rw [if_pos hb]
      exact tblMem_tblDel_false t i j h

theorem hkBatchFold_skip (op : Nat → HkTable → HkTable)
    (hop : ∀ i j t, j ≠ i → tblMem t i = false → tblMem (op j t) i = false)
    (ids1 ids2 : List Nat) (i : Nat) (t : HkTable) (h : tblMem t i = false) :
    hkBatchFold op t (ids1 ++ i :: ids2) = hkBatchFold op t (ids1 ++ ids2) := by
  induction ids1 generalizing t with
  | nil =>
    rw [List.nil_append, List.nil_append, hkBatchFold_cons, if_neg (by simp [h])]
  | cons j ids1 ih =>
    rw [List.cons_append, List.cons_append, hkBatchFold_cons, hkBatchFold_cons]
    apply ih
    by_cases hm : tblMem t j = true
    · rw [if_pos hm]
      have hji : j ≠ i := by
        intro he
        rw [he] at hm
        rw [hm] at h
        exact Bool.noConfusion h
      exact hop i j t hji h
    · rw [if_neg hm]
      exact h

theorem hkForEachReportId_parse (reports : HkTable) (appData : List Nat)
    (op : Nat → HkTable → HkTable) (ids : List Nat)
    (hu : unpackU16s (u16 appData) (appData.drop 2) = Option.some ids) :
    hkForEachReportId reports appData op = (.ok true, hkBatchFold op reports ids) := by
  rw [hkForEachReportId]
  rw [hu]

/-! ## Claim theorems: services -/

/-- C4: request-verification reports follow the command's ack flags: feeding
a TC through accept/start/progress/complete emits exactly one report per set
ack bit (4 for ACCEPTANCE|START|PROGRESS|COMPLETION = 0b1111, 0 for NONE),
and every emitted report's payload starts with the 4-byte request id
(packet id, sequence control) of the command. -/
theorem claim_C4_verification_fanout (p : PusTcPacket) (success : Bool)
    (failureCode : Option Nat) (failureData : List Nat) :
    (rvAllFour p success failureCode failureData).length =
      (if pusAck p 1 then 1 else 0) + (if pusAck p 2 then 1 else 0) +
      (if pusAck p 4 then 1 else 0) + (if pusAck p 8 then 1 else 0) ∧
    (p.secondaryHeader.ackFlags = 15 →
      (rvAllFour p success failureCode failureData).length = 4) ∧
    (p.secondaryHeader.ackFlags = 0 →
      rvAllFour p success failureCode failureData = []) ∧
    (∀ r ∈ rvAllFour p success failureCode failureData,
      r.payload.take 4 = requestIdBytes p.header) ∧
    (requestIdBytes p.header).length = 4 := by
  have h4 : (requestIdBytes p.header).length = 4 := by simp [requestIdBytes]
  have hgen : ∀ (s : Nat) (succ : Bool) fc fd,
      (rvGenerateReport p s succ fc fd).payload.take 4 = requestIdBytes p.header := by
    intro s succ fc fd
    rw [rvGenerateReport]
    exact List.take_left' h4
  refine ⟨?_, ?_, ?_, ?_, h4⟩
  · by_cases h1 : pusAck p 1 <;> by_cases h2 : pusAck p 2 <;>
      by_cases h3 : pusAck p 4 <;> by_cases h8 : pusAck p 8 <;>
      simp [rvAllFour, rvAccept, rvStart, rvProgress, rvComplete, h1, h2, h3, h8]
  · intro h
    have e1 : pusAck p 1 = true := by simp only [pusAck, h]; decide
    have e2 : pusAck p 2 = true := by simp only [pusAck, h]; decide
    have e3 : pusAck p 4 = true := by simp only [pusAck, h]; decide
    have e8 : pusAck p 8 = true := by simp only [pusAck, h]; decide
    simp [rvAllFour, rvAccept, rvStart, rvProgress, rvComplete, e1, e2, e3, e8]
  · intro h
    have e1 : pusAck p 1 = false := by simp only [pusAck, h]; decide
    have e2 : pusAck p 2 = false := by simp only [pusAck, h]; decide
    have e3 : pusAck p 4 = false := by simp only [pusAck, h]; decide
    have e8 : pusAck p 8 = false := by simp only [pusAck, h]; decide
    simp [rvAllFour, rvAccept, rvStart, rvProgress, rvComplete, e1, e2, e3, e8]
  · intro r hr
    have hone : ∀ (flag s : Nat) (succ : Bool) fc fd,
        r ∈ (if ¬ pusAck p flag then [] else [rvGenerateReport p s succ fc fd]) →
        r.payload.take 4 = requestIdBytes p.header := by
      intro flag s succ fc fd hmem
      by_cases hf : pusAck p flag = true
      · rw [if_neg (by simp [hf])] at hmem
        rw [List.mem_singleton.mp hmem]
        exact hgen s succ fc fd
      · rw [if_pos (by simp [hf])] at hmem
        exact absurd hmem (List.not_mem_nil r)
    simp only [rvAllFour, rvAccept, rvStart, rvProgress, rvComplete,
      List.mem_append] at hr
    rcases hr with ((hr | hr) | hr) | hr
    · exact hone 1 _ _ _ _ hr
    · exact hone 2 _ _ _ _ hr
    · exact hone 4 _ _ _ _ hr
    · exact hone 8 _ _ _ _ hr

/-- A command requesting all four verification stages, and one requesting
none. -/
def tcAck15 : PusTcPacket :=
  ⟨⟨0, PacketType.TC, true, 16, 3, 5, 8⟩, ⟨2, 15, 8, 1, Option.some 4660⟩,
    [170, 187], true⟩

def tcAck0 : PusTcPacket :=
  ⟨⟨0, PacketType.TC, true, 16, 3, 5, 8⟩, ⟨2, 0, 8, 1, Option.some 4660⟩,
    [170, 187], true⟩

theorem claim_C4_verification_fanout_witness :
    (rvAllFour tcAck15 true Option.none []).length = 4 ∧
    rvAllFour tcAck0 true Option.none [] = [] :=
  ⟨(claim_C4_verification_fanout tcAck15 true Option.none []).2.1 rfl,
   (claim_C4_verification_fanout tcAck0 true Option.none []).2.2.1 rfl⟩

/-- C5: the parameter value setter is a no-op (and notifies nobody) when the
new value equals the current one; otherwise it validates first (TypeError /
ValueError raised before any assignment, leaving the value unchanged and
notifying nobody), then replaces the value and notifies every subscriber in
subscription order with the old and new value.  An 8-bit unsigned parameter
rejects -1 and 256 with a range error, rejects a non-int with a type error,
and accepts 0 and 255. -/
theorem claim_C5_parameter_setter (valueSize : Nat) (p : ParamState) (v : PyValue) :
    (p.value = v → setValue valueSize p v = .ok (p, [])) ∧
    (p.value ≠ v → uintValidate valueSize v = .ok () →
      setValue valueSize p v = .ok ({ value := v, events := p.events },
        p.events.map fun s => (s, p.value, v))) ∧
    (∀ e, p.value ≠ v → uintValidate valueSize v = .error e →
      setValue valueSize p v = .error e) ∧
    (uintValidate 1 (.int (-1)) = .error .valueError ∧
     uintValidate 1 (.int 256) = .error .valueError ∧
     uintValidate 1 (.int 0) = .ok () ∧
     uintValidate 1 (.int 255) = .ok () ∧
     uintValidate 1 (.other 0) = .error .typeError) := by
  refine ⟨?_, ?_, ?_, by decide⟩
  · intro h
    rw [setValue, if_pos h]
  · intro hne hok
    rw [setValue, if_neg hne, hok]
  · intro e hne herr
    rw [setValue, if_neg hne, herr]

theorem claim_C5_parameter_setter_witness :
    setValue 1 ⟨.int 0, [3, 5]⟩ (.int 7) =
      .ok (⟨.int 7, [3, 5]⟩, [(3, .int 0, .int 7), (5, .int 0, .int 7)]) ∧
    setValue 1 ⟨.int 0, [3, 5]⟩ (.int 256) = .error .valueError ∧
    setValue 1 ⟨.int 5, [4]⟩ (.int 5) = .ok (⟨.int 5, [4]⟩, []) :=
  ⟨(claim_C5_parameter_setter 1 ⟨.int 0, [3, 5]⟩ (.int 7)).2.1 (by decide) (by decide),
   (claim_C5_parameter_setter 1 ⟨.int 0, [3, 5]⟩ (.int 256)).2.2.1 .valueError
     (by decide) (by decide),
   (claim_C5_parameter_setter 1 ⟨.int 5, [4]⟩ (.int 5)).1 (by decide)⟩


theorem beq_some_iff (a b : Int) : (Option.some a == Option.some b) = true ↔ a = b := by
  constructor
  · intro h
    have h2 := eq_of_beq h
    injection h2
  · intro h
    subst h
    simp

/-- C6 (amended): event-report triggers, evaluated on every value change of
the subscribed parameter, never dispatch while the report is disabled; an
absent to-value and from-value give the unconditional variant; a *nonzero*
to-value with absent from-value dispatches exactly when the new value equals
the target (so 0→1→2 with target 2 dispatches on the second change only);
nonzero from- and to-values dispatch exactly on the transition from→to.
Correction: the variants are selected by Python truthiness, so a trigger
value of 0 acts as if it were absent — to-value 0 dispatches on any change,
a from-to trigger with from = 0 degenerates to a to-value trigger, and one
with to = 0 compares the new value against 0. -/
theorem claim_C6_event_triggers :
    (∀ tv fv o n, triggerFires false tv fv o n = false) ∧
    (∀ o n, triggerFires true Option.none Option.none o n = true) ∧
    (∀ t o n, t ≠ 0 →
      (triggerFires true (Option.some t) Option.none o n = true ↔ n = t)) ∧
    (∀ f t o n, f ≠ 0 → t ≠ 0 →
      (triggerFires true (Option.some t) (Option.some f) o n = true ↔ o = f ∧ n = t)) ∧
    (triggerFires true (Option.some 2) Option.none 0 1 = false ∧
     triggerFires true (Option.some 2) Option.none 1 2 = true ∧
     triggerFires true (Option.some 1) (Option.some 2) 2 1 = true ∧
     triggerFires true (Option.some 1) (Option.some 2) 0 1 = false) ∧
    (∀ o n, triggerFires true (Option.some 0) Option.none o n = true) ∧
    (∀ t o n, t ≠ 0 →
      (triggerFires true (Option.some t) (Option.some 0) o n = true ↔ n = t)) ∧
    (∀ f o n, f ≠ 0 →
      (triggerFires true (Option.some 0) (Option.some f) o n = true ↔ o = f ∧ n = 0)) := by
  refine ⟨?_, ?_, ?_, ?_, by decide, ?_, ?_, ?_⟩
  · intro tv fv o n
    simp [triggerFires]
  · intro o n
    simp [triggerFires, truthyOpt]
  · intro t o n ht
    have htr : truthyOpt (Option.some t) = true := by simp [truthyOpt, ht]
    rw [triggerFires, if_neg (by simp), if_neg (by simp [htr]),
      if_pos (by simp [truthyOpt]), beq_some_iff]
    exact eq_comm
  · intro f t o n hf ht
    have htr : truthyOpt (Option.some t) = true := by simp [truthyOpt, ht]
    have hfr : truthyOpt (Option.some f) = true := by simp [truthyOpt, hf]
    rw [triggerFires, if_neg (by simp), if_neg (by simp [htr]),
      if_neg (by simp [hfr]), Bool.and_eq_true, beq_some_iff, beq_some_iff]
    exact and_congr eq_comm eq_comm
  · intro o n
    simp [triggerFires, truthyOpt]
  · intro t o n ht
    have htr : truthyOpt (Option.some t) = true := by simp [truthyOpt, ht]
    rw [triggerFires, if_neg (by simp), if_neg (by simp [htr]),
      if_pos (by simp [truthyOpt]), beq_some_iff]
    exact eq_comm
  · intro f o n hf
    have hfr : truthyOpt (Option.some f) = true := by simp [truthyOpt, hf]
    rw [triggerFires, if_neg (by simp), if_neg (by simp [hfr]),
      if_neg (by simp [hfr]), Bool.and_eq_true, beq_some_iff, beq_some_iff]
    exact and_congr eq_comm eq_comm

theorem claim_C6_event_triggers_witness :
    triggerFires true (Option.some 2) Option.none 1 2 = true :=
  (claim_C6_event_triggers.2.2.1 2 1 2 (by decide)).mpr rfl

/-- C6 counterexample: a defined to-value of 0 (with no from-value) is a
to-value trigger per the specification, which must not dispatch on the
change 1→2; the code's truthiness test treats 0 like `None` and dispatches
unconditionally. -/
theorem claim_C6_counterexample :
    triggerFires true (Option.some 0) Option.none 1 2 = true ∧
    specTriggerFires true (Option.some 0) Option.none 1 2 = false := by decide

/-- C7: housekeeping report lifecycle errors: creating over an existing
structure id fails with PUS3_SID_ALREADY_PRESENT (30) leaving the table
unchanged; duplicate parameter ids in a create fail with
PUS3_PARAM_DUPLICATION (33); appending to an enabled report fails with
PUS3_CANNOT_MODIFY_ENABLED_REPORT (32) and appending to an absent id with
PUS3_SID_NOT_PRESENT (31), all leaving the table unchanged; and a delete
request leaves every enabled report in place. -/
theorem claim_C7_hk_report_lifecycle (params : List Nat) (reports : HkTable) :
    (∀ appData, params.length ≠ 0 → tblMem reports (u16 appData) = true →
      hkCreateOrAppendReport params reports appData false = (.errEnum 30, reports)) ∧
    (∀ appData pids, params.length ≠ 0 → tblMem reports (u16 appData) = false →
      unpackU16s (u16 (appData.drop 4))
        ((appData.drop 6).take (2 * u16 (appData.drop 4))) = Option.some pids →
      pids.dedup.length ≠ pids.length →
      hkCreateOrAppendReport params reports appData false = (.errEnum 33, reports)) ∧
    (∀ appData r, params.length ≠ 0 →
      tblGet? reports (u16 appData) = Option.some r → r.enabled = true →
      hkCreateOrAppendReport params reports appData true = (.errEnum 32, reports)) ∧
    (∀ appData, params.length ≠ 0 → tblMem reports (u16 appData) = false →
      hkCreateOrAppendReport params reports appData true = (.errEnum 31, reports)) ∧
    (∀ appData k r, tblGet? reports k = Option.some r → r.enabled = true →
      tblGet? (hkDeleteReports reports appData).2 k = Option.some r) := by
  refine ⟨?_, ?_, ?_, ?_, ?_⟩
  · intro appData hp hm
    simp [hkCreateOrAppendReport, hp, hm]
  · intro appData pids hp hm0 hun hdup
    simp [hkCreateOrAppendReport, hp, hm0, hun, hdup]
  · intro appData r hp hget hen
    have hm := tblMem_of_get reports (u16 appData) r hget
    simp [hkCreateOrAppendReport, hp, hm, hget, hen]
  · intro appData hp hm0
    simp [hkCreateOrAppendReport, hp, hm0]
  · intro appData k r hget hen
    rw [hkDeleteReports]
    rcases hu : unpackU16s (u16 appData) (appData.drop 2) with _ | ids
    · rw [hkForEachReportId, hu]
      exact hget
    · rw [hkForEachReportId_parse reports appData hkDeleteOp ids hu]
      exact hkBatchFold_preserves_enabled ids reports k r hget hen

/-- A table with an enabled report 1 and a disabled report 2. -/
def hkTableSample : HkTable := [(1, ⟨1, 10, true, [7]⟩), (2, ⟨2, 20, false, [8]⟩)]

theorem claim_C7_hk_report_lifecycle_witness :
    hkCreateOrAppendReport [7, 8] hkTableSample [0, 1] false =
      (.errEnum 30, hkTableSample) ∧
    hkCreateOrAppendReport [7, 8] hkTableSample
      [0, 3, 0, 5, 0, 2, 0, 7, 0, 7, 0, 0] false = (.errEnum 33, hkTableSample) ∧
    hkCreateOrAppendReport [7, 8] hkTableSample [0, 1] true =
      (.errEnum 32, hkTableSample) ∧
    hkCreateOrAppendReport [7, 8] hkTableSample [0, 9] true =
      (.errEnum 31, hkTableSample) ∧
    tblGet? (hkDeleteReports hkTableSample [0, 2, 0, 1, 0, 2]).2 1 =
      Option.some ⟨1, 10, true, [7]⟩ :=
  ⟨(claim_C7_hk_report_lifecycle [7, 8] hkTableSample).1 [0, 1]
      (by decide) (by decide),
   (claim_C7_hk_report_lifecycle [7, 8] hkTableSample).2.1
      [0, 3, 0, 5, 0, 2, 0, 7, 0, 7, 0, 0] [7, 7]
      (by decide) (by decide) (by decide) (by decide),
   (claim_C7_hk_report_lifecycle [7, 8] hkTableSample).2.2.1 [0, 1]
      ⟨1, 10, true, [7]⟩ (by decide) (by decide) (by decide),
   (claim_C7_hk_report_lifecycle [7, 8] hkTableSample).2.2.2.1 [0, 9]
      (by decide) (by decide),
   (claim_C7_hk_report_lifecycle [7, 8] hkTableSample).2.2.2.2
      [0, 2, 0, 1, 0, 2] 1 ⟨1, 10, true, [7]⟩ (by decide) (by decide)⟩

/-- C8 (amended): the housekeeping batch subservices (delete /
enable / disable) parse a count and N ids and act strictly per id: the
request is never rejected as a whole, an id naming no report is skipped
(removing it from the request changes nothing), and an id naming a report
is acted upon.  Correction: the event-reporting enable/disable subservices
first check `all(eid in self._reports ...)` and reject the entire request —
returning False and toggling nothing — as soon as any listed id is unknown;
only a request whose ids all exist is applied per id. -/
theorem claim_C8_batch_report_ids (reports : HkTable)
    (evReports : List (Nat × Bool)) (enable : Bool) :
    (∀ appData ids, unpackU16s (u16 appData) (appData.drop 2) = Option.some ids →
      hkToggleReports reports appData enable =
        (.ok true, hkBatchFold (hkToggleOp enable) reports ids) ∧
      hkDeleteReports reports appData =
        (.ok true, hkBatchFold hkDeleteOp reports ids)) ∧
    (∀ ids1 ids2 i, tblMem reports i = false →
      hkBatchFold (hkToggleOp enable) reports (ids1 ++ i :: ids2) =
        hkBatchFold (hkToggleOp enable) reports (ids1 ++ ids2) ∧
      hkBatchFold hkDeleteOp reports (ids1 ++ i :: ids2) =
        hkBatchFold hkDeleteOp reports (ids1 ++ ids2)) ∧
    (∀ t i r, tblGet? t i = Option.some r →
      (if tblMem t i then hkToggleOp enable i t else t) =
        tblSet t i { r with enabled := enable }) ∧
    (∀ appData ids, unpackU16s (u8 appData) (appData.drop 1) = Option.some ids →
      (ids.all fun eid => evReports.any fun e => e.1 = eid) = false →
      evToggle evReports appData enable = (.ok false, evReports)) ∧
    (∀ appData ids, unpackU16s (u8 appData) (appData.drop 1) = Option.some ids →
      (ids.all fun eid => evReports.any fun e => e.1 = eid) = true →
      evToggle evReports appData enable =
        (.ok true, ids.foldl (fun t eid =>
          if t.any fun e => e.1 = eid then
            t.map fun e => if e.1 = eid then (e.1, enable) else e
          else t) evReports)) := by
  refine ⟨?_, ?_, ?_, ?_, ?_⟩
  · intro appData ids hu
    exact ⟨hkForEachReportId_parse reports appData (hkToggleOp enable) ids hu,
      hkForEachReportId_parse reports appData hkDeleteOp ids hu⟩
  · intro ids1 ids2 i h
    exact ⟨hkBatchFold_skip (hkToggleOp enable)
        (fun i j t hji hm => tblMem_hkToggleOp_false enable j i t hji hm)
        ids1 ids2 i reports h,
      hkBatchFold_skip hkDeleteOp
        (fun i j t hji hm => tblMem_hkDeleteOp_false j i t hm)
        ids1 ids2 i reports h⟩
  · intro t i r hget
    rw [if_pos (tblMem_of_get t i r hget), hkToggleOp, hget]
  · intro appData ids hu hall
    rw [evToggle, hu]
    simp [hall]
  · intro appData ids hu hall
    rw [evToggle, hu]
    simp [hall]

theorem claim_C8_batch_report_ids_witness :
    hkToggleReports hkTableSample [0, 1, 0, 9] false =
      (.ok true, hkBatchFold (hkToggleOp false) hkTableSample [9]) ∧
    hkBatchFold (hkToggleOp false) hkTableSample ([] ++ 9 :: [2]) =
      hkBatchFold (hkToggleOp false) hkTableSample ([] ++ [2]) ∧
    evToggle [(1, true), (4, false)] [2, 0, 1, 0, 9] false =
      (.ok false, [(1, true), (4, false)]) :=
  ⟨((claim_C8_batch_report_ids hkTableSample [(1, true), (4, false)] false).1
      [0, 1, 0, 9] [9] (by decide)).1,
   ((claim_C8_batch_report_ids hkTableSample [(1, true), (4, false)] false).2.1
      [] [2] 9 (by decide)).1,
   (claim_C8_batch_report_ids hkTableSample [(1, true), (4, false)] false).2.2.2.1
      [2, 0, 1, 0, 9] [1, 9] (by decide) (by decide)⟩

/-- C8 counterexample: the event-reporting disable request listing the
existing id 1 and the unknown id 9 is rejected as a whole — it returns
False and report 1 stays enabled — whereas the claimed per-id semantics
would disable report 1 and skip id 9. -/
theorem claim_C8_counterexample :
    evToggle [(1, true)] [2, 0, 1, 0, 9] false = (.ok false, [(1, true)]) ∧
    evToggle [(1, true)] [2, 0, 1, 0, 9] false ≠ (.ok true, [(1, false)]) := by
  decide

/-- C9 (amended): `PusService.process()` dispatches each queued command
exactly once and in order, with one accept/complete verification pair per
command, as long as every handler outcome is a bool or an error-code enum —
a handler outcome signalling failure does not abort the loop.  Correction:
a handler that raises an uncaught exception (the housekeeping create
request with a non-zero super-commutated array count raises
`NotImplementedError`) aborts the dispatch loop, leaving the remaining
queued commands unprocessed (see the counterexample). -/
theorem claim_C9_dispatch_isolation {σ : Type}
    (handler : Nat → List Nat → σ → HandlerRet × σ) (q : List QueuedTc) (s : σ)
    (hnr : ∀ sub ad st, (handler sub ad st).1 ≠ HandlerRet.raisedError) :
    (processQueue handler q s).1.handled = q ∧
    (processQueue handler q s).1.aborted = false ∧
    (processQueue handler q s).1.verified.map (fun e => e.1) = q := by
  induction q generalizing s with
  | nil => exact ⟨rfl, rfl, rfl⟩
  | cons tc rest ih =>
    rcases hr : handler tc.subservice tc.appData s with ⟨ret, s1⟩
    rcases ret with b | c | _
    · obtain ⟨ih1, ih2, ih3⟩ := ih s1
      refine ⟨?_, ?_, ?_⟩ <;> simp only [processQueue, hr] <;> simp [ih1, ih2, ih3]
    · obtain ⟨ih1, ih2, ih3⟩ := ih s1
      refine ⟨?_, ?_, ?_⟩ <;> simp only [processQueue, hr] <;> simp [ih1, ih2, ih3]
    · have h1 : (handler tc.subservice tc.appData s).1 = HandlerRet.raisedError := by
        rw [hr]
      exact absurd h1 (hnr tc.subservice tc.appData s)

theorem claim_C9_dispatch_isolation_witness :
    (processQueue (fun _ _ (s : Unit) => (HandlerRet.ok true, s))
      [⟨1, []⟩, ⟨2, []⟩] ()).1.handled = [⟨1, []⟩, ⟨2, []⟩] :=
  (claim_C9_dispatch_isolation (fun _ _ (s : Unit) => (HandlerRet.ok true, s))
    [⟨1, []⟩, ⟨2, []⟩] () (fun _ _ _ h => HandlerRet.noConfusion h)).1

/-- A create request whose super-commutated array count is 1 (raises), and
a well-formed create request for structure id 6. -/
def hkCmdRaise : QueuedTc := ⟨1, [0, 5, 0, 1, 0, 0, 0, 1]⟩

def hkCmdGood : QueuedTc := ⟨1, [0, 6, 0, 1, 0, 0, 0, 0]⟩

/-- C9 counterexample: with the TC[3,1] create-report handler, a queue
holding a create request with a non-zero super-commutated array count
followed by a valid create request aborts after the first command: the
loop stops, no verification is emitted, and the second report is never
created. -/
theorem claim_C9_counterexample :
    processQueue (hkCreateHandler [7]) [hkCmdRaise, hkCmdGood] [] =
      (⟨[hkCmdRaise], [], true⟩, []) ∧
    tblMem (processQueue (hkCreateHandler [7]) [hkCmdRaise, hkCmdGood] []).2 6 =
      false := by
  decide

/-- C10: the modify-collection-intervals handler always returns success and
leaves the addressed report table (housekeeping or diagnostic) completely
unchanged: the membership test compares the parsed structure-id parameter
object against the table's integer keys, which is always false in Python,
so no report is ever matched and no interval modified. -/
theorem claim_C10_modify_intervals_no_op (reports : HkTable) (appData : List Nat) :
    hkModifyReportIntervals reports appData = (.ok true, reports) := by
  rw [hkModifyReportIntervals]
  have hloop : ∀ (n offset : Nat) (t : HkTable),
      hkModifyLoop appData n offset t = t := by
    intro n
    induction n with
    | zero => intro offset t; rfl
    | succ k ih =>
      intro offset t
      have hcond : (t.any fun e =>
          pyKeyEq (PyKey.paramObj (u16 (appData.drop offset)))
            (PyKey.intKey e.1)) = false := by
        induction t with
        | nil => rfl
        | cons e t iht => simp [List.any_cons, iht, pyKeyEq]
      simp only [hkModifyLoop]
      rw [hcond, if_neg Bool.false_ne_true]
      exact ih (offset + 2) t
  rw [hloop]

end Puslib
